import Mathlib

/-!
Verification of the openword-lexicon Wiktionary scanners.

This file shallow-embeds the extraction and pipeline code of
`src/tools/wiktionary-scanner-rust` (the current scanner) and, where the
claims reference it, the legacy `src/tools/wiktionary-rust` tool.

Conventions of the embedding:

* Rust `&str`/`String` values are embedded as `List Char` (sequences of
  Unicode scalar values).  Slicing in the Rust code is by byte index but
  always at character boundaries produced by earlier matches, so the
  character-list model is exact.
* The Rust code matches text with the `regex` crate (leftmost-first,
  backtracking-equivalent semantics).  A small generic matcher (`RItem`,
  `matchItems`) reproduces those semantics; each `Regex::new(...)` of the
  source is transliterated into a `List RItem` value of the same name.
  `\d`, `\w` and case folding are modelled at the ASCII/Latin level on
  which the scanner operates.
* Rust `char::is_whitespace` (the Unicode `White_Space` set) is modelled
  exactly; `char::is_alphabetic` (the Unicode `Alphabetic` property) is
  modelled by `isAlphabeticM`, a computable table of the code-point
  ranges exercised by the scanner and by the concrete inputs below.
* External configuration (the POS/label YAML schemas) is an injected
  read-only lookup table in the source; it is a `ScanConfig` parameter
  here.
-/

set_option maxRecDepth 8000

namespace OWL

/-- Character sequences standing for Rust strings. -/
abbrev Str := List Char

/-- Rust `char::is_whitespace`: the Unicode `White_Space` set, modelled exactly. -/
def isRustWhitespace (c : Char) : Bool :=
  let n := c.toNat
  (n == 0x09) || (n == 0x0A) || (n == 0x0B) || (n == 0x0C) || (n == 0x0D) ||
  (n == 0x20) || (n == 0x85) || (n == 0xA0) || (n == 0x1680) ||
  (0x2000 ≤ n && n ≤ 0x200A) || (n == 0x2028) || (n == 0x2029) ||
  (n == 0x202F) || (n == 0x205F) || (n == 0x3000)

/-- ASCII decimal digit, the `\d` class as it occurs in the scanner
(captured digit runs are fed to `usize` parsing, which only accepts
ASCII digits). -/
def isAsciiDigit (c : Char) : Bool :=
  0x30 ≤ c.toNat && c.toNat ≤ 0x39

/-- ASCII lowercase letter. -/
def isAsciiLower (c : Char) : Bool :=
  0x61 ≤ c.toNat && c.toNat ≤ 0x7A

/-- ASCII uppercase letter. -/
def isAsciiUpper (c : Char) : Bool :=
  0x41 ≤ c.toNat && c.toNat ≤ 0x5A

/-- ASCII letter. -/
def isAsciiAlpha (c : Char) : Bool :=
  isAsciiLower c || isAsciiUpper c

/-- Computable model of Rust `char::is_alphabetic` (Unicode `Alphabetic`)
covering ASCII letters, the Latin-1/Latin-Extended letters, the modifier
letters up to U+02D1, U+0345 (the sole `Other_Alphabetic` combining mark in
U+0300–U+036F) and the Greek lowercase letters.  Every theorem below either
does not depend on the value of this predicate outside those ranges or
evaluates it on concrete characters inside them. -/
def isAlphabeticM (c : Char) : Bool :=
  let n := c.toNat
  isAsciiAlpha c || (n == 0xAA) || (n == 0xB5) || (n == 0xBA) ||
  (0xC0 ≤ n && n ≤ 0xD6) || (0xD8 ≤ n && n ≤ 0xF6) || (0xF8 ≤ n && n ≤ 0x2C1) ||
  (0x2C6 ≤ n && n ≤ 0x2D1) || (n == 0x345) || (0x3B1 ≤ n && n ≤ 0x3C9)

/-- ASCII case folding, the case-insensitivity model for the `(?i)` regex
flag (all case-insensitive literals of the scanner are ASCII). -/
def foldCase (c : Char) : Char :=
  if isAsciiUpper c then Char.ofNat (c.toNat + 32) else c

/-- Model of `\w` for the word-boundary assertion `\b`. -/
def isWordChar (c : Char) : Bool :=
  isAlphabeticM c || isAsciiDigit c || (c == Char.ofNat 0x5F)

/-- Rust `str::trim` (both ends, `char::is_whitespace`). -/
def trimL (s : Str) : Str :=
  ((s.dropWhile isRustWhitespace).reverse.dropWhile isRustWhitespace).reverse

/-- Rust `str::trim_matches(mark)`: strip `mark` from both ends. -/
def trimMatches (mark : Char) (s : Str) : Str :=
  ((s.dropWhile (· == mark)).reverse.dropWhile (· == mark)).reverse

/-- ASCII-level model of Rust `str::to_lowercase` (all strings the scanner
lowercases before lookup are treated at the ASCII level). -/
def lowerL (s : Str) : Str := s.map foldCase

/-- Rust `str::eq_ignore_ascii_case` on whole strings. -/
def eqCI (a b : Str) : Bool :=
  a.length == b.length &&
    (List.zip a b).all (fun p => foldCase p.1 == foldCase p.2)

/-- Literal match of `pat` against `seg`, optionally case-insensitive. -/
def litOK (seg pat : Str) (ci : Bool) : Bool :=
  if ci then eqCI seg pat
  else seg == pat

/-- Substring containment, Rust `str::contains(&str)`. -/
def containsLit (text pat : Str) : Bool :=
  (List.range (text.length + 1)).any
    (fun s => ((text.drop s).take pat.length) == pat)

/-- Case-insensitive substring containment (used for `(?i)` regexes that
are a bare literal, and for `to_lowercase().contains(..)`). -/
def containsLitCI (text pat : Str) : Bool :=
  (List.range (text.length + 1)).any
    (fun s => eqCI ((text.drop s).take pat.length) pat)

/-- Rust `str::starts_with(&str)`. -/
def startsWithLit (text pat : Str) : Bool :=
  text.take pat.length == pat

/-- Items of the transliterated regexes.  `lit s ci` is a literal (with
case-insensitivity flag), `chrc p` one character of a class, `cls p min lz`
a repetition `p{min,}` (lazy when `lz`), `cap i p min lz` the same but
capturing into group `i`, `altL` an ordered alternation of literals, `optG
a b` an optional group `(?:a b)?`, `lineEnd` the multiline `$`, and `wordB`
the `\b` assertion. -/
inductive RItem where
  | lit : Str → Bool → RItem
  | chrc : (Char → Bool) → RItem
  | cls : (Char → Bool) → Nat → Bool → RItem
  | cap : Nat → (Char → Bool) → Nat → Bool → RItem
  | altL : List Str → Bool → RItem
  | optG : RItem → RItem → RItem
  | lineEnd : RItem
  | wordB : RItem

/-- Termination weight of one item (optional groups count the weight of
their content plus a strict surplus). -/
def rw : RItem → Nat
  | .optG a b => 2 + rw a + rw b
  | _ => 1

/-- Termination weight of an item sequence. -/
def rws : List RItem → Nat
  | [] => 0
  | i :: r => rw i + rws r

/-- Length of the maximal run of characters satisfying `p` at `pos`. -/
def runLen (text : Str) (pos : Nat) (p : Char → Bool) : Nat :=
  ((text.drop pos).takeWhile p).length

/-- Is `pos` the start of a line (for the `(?m)^` anchor)? -/
def lineStartOK (text : Str) (pos : Nat) : Bool :=
  (pos == 0) || ((text.getD (pos - 1) ' ') == Char.ofNat 10)

/-- Backtracking matcher: try to match `items` at position `pos` of `text`,
returning the end position and the captures.  Repetitions enumerate their
candidate lengths in greedy (longest-first) or lazy (shortest-first) order,
which reproduces the leftmost-first semantics of the `regex` crate for the
patterns below.  The fuel argument makes the recursion structural (the
kernel must be able to evaluate matches on concrete pages); every
recursive call strictly decreases the weight `rws items`, so the
`rws items + 1` fuel the drivers supply can never run out. -/
def matchItems (text : Str) : Nat → List RItem → Nat → Option (Nat × List (Nat × Str))
  | 0, _, _ => none
  | _ + 1, [], pos => some (pos, [])
  | fuel + 1, .lit s ci :: rest, pos =>
    if litOK ((text.drop pos).take s.length) s ci then
      matchItems text fuel rest (pos + s.length)
    else none
  | fuel + 1, .chrc p :: rest, pos =>
    match (text.drop pos).head? with
    | some c => if p c then matchItems text fuel rest (pos + 1) else none
    | none => none
  | fuel + 1, .cls p mn lz :: rest, pos =>
    let mx := runLen text pos p
    if mx < mn then none
    else
      (List.range (mx - mn + 1)).findSome?
        (fun i =>
          let k := if lz then mn + i else mx - i
          matchItems text fuel rest (pos + k))
  | fuel + 1, .cap idx p mn lz :: rest, pos =>
    let mx := runLen text pos p
    if mx < mn then none
    else
      (List.range (mx - mn + 1)).findSome?
        (fun i =>
          let k := if lz then mn + i else mx - i
          (matchItems text fuel rest (pos + k)).map
            (fun r => (r.1, (idx, (text.drop pos).take k) :: r.2)))
  | fuel + 1, .altL alts ci :: rest, pos =>
    alts.findSome?
      (fun s =>
        if litOK ((text.drop pos).take s.length) s ci then
          matchItems text fuel rest (pos + s.length)
        else none)
  | fuel + 1, .optG a b :: rest, pos =>
    (matchItems text fuel (a :: b :: rest) pos).orElse
      (fun _ => matchItems text fuel rest pos)
  | fuel + 1, .lineEnd :: rest, pos =>
    if pos == text.length || (text.getD pos ' ') == Char.ofNat 10 then
      matchItems text fuel rest pos
    else none
  | fuel + 1, .wordB :: rest, pos =>
    let before := if pos == 0 then false else isWordChar (text.getD (pos - 1) ' ')
    let after :=
      match (text.drop pos).head? with
      | some c => isWordChar c
      | none => false
    if before != after then matchItems text fuel rest pos else none

/-- Leftmost match of `items` in `text` at or after `start`; when `anchor`
is set only line starts are tried (the `(?m)^` anchor).  Returns the match
start, its end and the captures. -/
def regexFindFrom (items : List RItem) (anchor : Bool) (text : Str) (start : Nat) :
    Option (Nat × Nat × List (Nat × Str)) :=
  (List.range (text.length + 1 - start)).findSome?
    (fun i =>
      let s := start + i
      if anchor && !lineStartOK text s then none
      else (matchItems text (rws items + 1) items s).map (fun r => (s, r.1, r.2)))

/-- Leftmost match in the whole text, i.e. `Regex::find` / `Regex::captures`. -/
def regexFind (items : List RItem) (anchor : Bool) (text : Str) :
    Option (Nat × Nat × List (Nat × Str)) :=
  regexFindFrom items anchor text 0

/-- `Regex::is_match`. -/
def regexIsMatch (items : List RItem) (anchor : Bool) (text : Str) : Bool :=
  (regexFind items anchor text).isSome

/-- Group `i` of a capture list. -/
def getCap (caps : List (Nat × Str)) (i : Nat) : Option Str :=
  (caps.find? (fun p => p.1 == i)).map (·.2)

/-- Capture group `i` of the leftmost match, i.e. `cap[i]` after
`Regex::captures`. -/
def regexCapture (items : List RItem) (anchor : Bool) (text : Str) (i : Nat) :
    Option Str :=
  (regexFind items anchor text).bind (fun r => getCap r.2.2 i)

/-- The full text of the leftmost match (`cap[0]`). -/
def regexMatchStr (items : List RItem) (anchor : Bool) (text : Str) : Option Str :=
  (regexFind items anchor text).map
    (fun r => (text.drop r.1).take (r.2.1 - r.1))

/-- All non-overlapping matches from position `from0` on, leftmost first
(`find_iter` / `captures_iter`).  The fuel is sufficient because every
match of the patterns below is nonempty. -/
def regexIterAux (items : List RItem) (anchor : Bool) (text : Str) :
    Nat → Nat → List (Nat × Nat × List (Nat × Str))
  | 0, _ => []
  | fuel + 1, from0 =>
    match regexFindFrom items anchor text from0 with
    | none => []
    | some (s, e, caps) =>
      (s, e, caps) :: regexIterAux items anchor text fuel (max e (s + 1))

/-- `Regex::find_iter` / `captures_iter` over the whole text. -/
def regexIter (items : List RItem) (anchor : Bool) (text : Str) :
    List (Nat × Nat × List (Nat × Str)) :=
  regexIterAux items anchor text (text.length + 1) 0

/-- Replace every match by its capture group 1 (`replace_all(s, "$1")`)
when `useCap` is set, by the empty string otherwise. -/
def regexReplaceAux (items : List RItem) (text : Str) (useCap : Bool) :
    Nat → Nat → Str
  | 0, from0 => text.drop from0
  | fuel + 1, from0 =>
    match regexFindFrom items false text from0 with
    | none => text.drop from0
    | some (s, e, caps) =>
      ((text.drop from0).take (s - from0)) ++
        (if useCap then (getCap caps 1).getD [] else []) ++
        regexReplaceAux items text useCap fuel (max e (s + 1))

/-- `Regex::replace_all`. -/
def regexReplaceAll (items : List RItem) (text : Str) (useCap : Bool) : Str :=
  regexReplaceAux items text useCap (text.length + 1) 0

/-- Replace all occurrences of the literal `pat` by `repl`
(Rust `str::replace`). -/
def replaceLitAux (pat repl : Str) : Nat → Str → Str
  | 0, s => s
  | _, [] => []
  | fuel + 1, s =>
    if s.take pat.length == pat ∧ pat ≠ [] then
      repl ++ replaceLitAux pat repl fuel (s.drop pat.length)
    else
      match s with
      | [] => []
      | c :: rest => c :: replaceLitAux pat repl fuel rest

/-- Rust `str::replace(pat, repl)`. -/
def replaceLit (s pat repl : Str) : Str :=
  replaceLitAux pat repl (s.length + 1) s

/-- Left brace character (written by code point to keep string literals
brace-free). -/
def lb : Char := Char.ofNat 0x7B

/-- Right brace character. -/
def rb : Char := Char.ofNat 0x7D

/-- Case-sensitive literal item. -/
def litM (s : Str) : RItem := RItem.lit s false

/-- Case-insensitive literal item (the `(?i)` flag). -/
def litCI (s : Str) : RItem := RItem.lit s true

/-- Whitespace repetition `\s{mn,}` (greedy). -/
def wsM (mn : Nat) : RItem := RItem.cls isRustWhitespace mn false

/-- Equals-sign repetition `={mn,}` (greedy), for header markers. -/
def eqRun (mn : Nat) : RItem := RItem.cls (fun c => c == '=') mn false

/-- Empty literal, the epsilon branch of one-sided optional groups. -/
def epsI : RItem := RItem.lit [] false

/-- Character class `[^}|]`, the fixed-arity template slot class. -/
def nbp (c : Char) : Bool := c != rb && c != '|'

/-- Character class `[^}]`. -/
def nrb (c : Char) : Bool := c != rb

/-!
Transliterations of the `lazy_static` regexes of
`wiktionary-scanner-rust/src/main.rs` (the legacy tool declares the same
patterns for every one used below).  Each definition carries its source
pattern.  Nested literal alternations such as `en-(?:noun|verb|...)` are
expanded to a flat ordered literal list, preserving the branch order.
-/

/-- `<title>([^<]+)</title>` -/
def TITLE_PATTERN : List RItem :=
  [litM ("<title>".toList), RItem.cap 1 (fun c => c != '<') 1 false,
   litM ("</title>".toList)]

/-- `<ns>(\d+)</ns>` -/
def NS_PATTERN : List RItem :=
  [litM ("<ns>".toList), RItem.cap 1 isAsciiDigit 1 false,
   litM ("</ns>".toList)]

/-- `(?s)<text[^>]*>(.+?)</text>` -/
def TEXT_PATTERN : List RItem :=
  [litM ("<text".toList), RItem.cls (fun c => c != '>') 0 false,
   litM (">".toList), RItem.cap 1 (fun _ => true) 1 true,
   litM ("</text>".toList)]

/-- `<redirect\s+title="[^"]+"` -/
def REDIRECT_PATTERN : List RItem :=
  [litM ("<redirect".toList), wsM 1, litM ("title=\"".toList),
   RItem.cls (fun c => c != '"') 1 false, litM ("\"".toList)]

/-- `(?i)==\s*English\s*==` -/
def ENGLISH_SECTION : List RItem :=
  [litM ("==".toList), wsM 0, litCI ("english".toList), wsM 0,
   litM ("==".toList)]

/-- `(?m)^==\s*([^=]+?)\s*==$` (used with the line-start anchor flag) -/
def LANGUAGE_SECTION : List RItem :=
  [litM ("==".toList), wsM 0, RItem.cap 1 (fun c => c != '=') 1 true,
   wsM 0, litM ("==".toList), RItem.lineEnd]

/-- `(?m)^===+\s*(.+?)\s*===+\s*$` (used with the line-start anchor flag) -/
def POS_HEADER : List RItem :=
  [eqRun 3, wsM 0, RItem.cap 1 (fun c => c.toNat != 10) 1 true,
   wsM 0, eqRun 3, wsM 0, RItem.lineEnd]

/-- `(?i)\x7b\x7b(?:head|en-head|head-lite)\|en\|([^}|]+)` -/
def HEAD_TEMPLATE : List RItem :=
  [litM [lb, lb], RItem.altL [("head".toList), ("en-head".toList), ("head-lite".toList)] true,
   litCI ("|en|".toList), RItem.cap 1 nbp 1 false]

/-- `(?m)^#\s+(.+)$` (used with the line-start anchor flag) -/
def DEFINITION_LINE : List RItem :=
  [litM ("#".toList), wsM 1, RItem.cap 1 (fun c => c.toNat != 10) 1 false,
   RItem.lineEnd]

/-- `(?i)\x7b\x7b(?:lb|label|context)\|en\|([^}]+)\x7d\x7d` -/
def CONTEXT_LABEL : List RItem :=
  [litM [lb, lb], RItem.altL [("lb".toList), ("label".toList), ("context".toList)] true,
   litCI ("|en|".toList), RItem.cap 1 nrb 1 false, litM [rb, rb]]

/-- `(?i)\x7b\x7b(?:abbreviation of|abbrev of|abbr of|initialism of)\|en\|` -/
def ABBREVIATION_TEMPLATE : List RItem :=
  [litM [lb, lb],
   RItem.altL [("abbreviation of".toList), ("abbrev of".toList),
     ("abbr of".toList), ("initialism of".toList)] true,
   litCI ("|en|".toList)]

/-- `(?i)\x7b\x7b(?:plural of|past tense of|past participle of|present participle of|comparative of|superlative of|inflection of)\|en\|` -/
def INFLECTION_TEMPLATE_EXISTS : List RItem :=
  [litM [lb, lb],
   RItem.altL [("plural of".toList), ("past tense of".toList),
     ("past participle of".toList), ("present participle of".toList),
     ("comparative of".toList), ("superlative of".toList),
     ("inflection of".toList)] true,
   litCI ("|en|".toList)]

/-- `(?i)\x7b\x7bno entry\|en` -/
def DICT_ONLY : List RItem :=
  [litCI ((String.toList "\x7b\x7bno entry|en"))]

/-- `(?i)\x7b\x7b(?:abbr of|abbreviation of|abbrev of|initialism of|acronym of|alternative form of|alt form|alt sp|plural of|past tense of|past participle of|present participle of|en-(?:noun|verb|adj|adv|past of))\|en\|`
with the inner alternation expanded in order. -/
def DEFINITION_TEMPLATES : List RItem :=
  [litM [lb, lb],
   RItem.altL [("abbr of".toList), ("abbreviation of".toList),
     ("abbrev of".toList), ("initialism of".toList), ("acronym of".toList),
     ("alternative form of".toList), ("alt form".toList), ("alt sp".toList),
     ("plural of".toList), ("past tense of".toList),
     ("past participle of".toList), ("present participle of".toList),
     ("en-noun".toList), ("en-verb".toList), ("en-adj".toList),
     ("en-adv".toList), ("en-past of".toList)] true,
   litCI ("|en|".toList)]

/-- `(?i)\x7b\x7b(?:hyphenation|hyph)\|en\|([^}]+)\x7d\x7d` -/
def HYPHENATION_TEMPLATE : List RItem :=
  [litM [lb, lb], RItem.altL [("hyphenation".toList), ("hyph".toList)] true,
   litCI ("|en|".toList), RItem.cap 1 nrb 1 false, litM [rb, rb]]

/-- `(?i)\x7b\x7brhymes\|en\|[^}]*\|s=(\d+)` -/
def RHYMES_SYLLABLE : List RItem :=
  [litCI (String.toList "\x7b\x7brhymes|en|"), RItem.cls nrb 0 false,
   litM ("|s=".toList), RItem.cap 1 isAsciiDigit 1 false]

/-- `(?i)\[\[Category:English\s+(\d+)-syllable\s+words?\]\]` -/
def SYLLABLE_CATEGORY : List RItem :=
  [litCI ("[[category:english".toList), wsM 1,
   RItem.cap 1 isAsciiDigit 1 false, litCI ("-syllable".toList), wsM 1,
   litCI ("word".toList), RItem.optG (litCI ("s".toList)) epsI,
   litM ("]]".toList)]

/-- `(?i)\x7b\x7bIPA\|en\|([^}]+)\x7d\x7d` -/
def IPA_TEMPLATE : List RItem :=
  [litCI (String.toList "\x7b\x7bipa|en|"), RItem.cap 1 nrb 1 false,
   litM [rb, rb]]

/-- `[/\[]([^/\[\]]+)[/\]]` -/
def IPA_TRANSCRIPTION : List RItem :=
  [RItem.chrc (fun c => c == '/' || c == '['),
   RItem.cap 1 (fun c => c != '/' && c != '[' && c != ']') 1 false,
   RItem.chrc (fun c => c == '/' || c == ']')]

/-- `(?i)\x7b\x7ben-prepphr\b` -/
def PREP_PHRASE_TEMPLATE : List RItem :=
  [litCI (String.toList "\x7b\x7ben-prepphr"), RItem.wordB]

/-- `(?si)===+\s*Etymology\s*\d*\s*===+\s*\n(.+)` -/
def ETYMOLOGY_SECTION : List RItem :=
  [eqRun 3, wsM 0, litCI ("etymology".toList), wsM 0,
   RItem.cls isAsciiDigit 0 false, wsM 0, eqRun 3, wsM 0,
   litM [Char.ofNat 10], RItem.cap 1 (fun _ => true) 1 false]

/-- `\n===` -/
def NEXT_SECTION : List RItem :=
  [litM (Char.ofNat 10 :: ("===".toList))]

/-- `(?i)\x7b\x7bsuffix\|en\|([^}|]+)\|([^}|]+)(?:\|([^}|]+))?\x7d\x7d` -/
def SUFFIX_TEMPLATE : List RItem :=
  [litCI (String.toList "\x7b\x7bsuffix|en|"), RItem.cap 1 nbp 1 false,
   litM ("|".toList), RItem.cap 2 nbp 1 false,
   RItem.optG (litM ("|".toList)) (RItem.cap 3 nbp 1 false), litM [rb, rb]]

/-- `(?i)\x7b\x7bprefix\|en\|([^}|]+)\|([^}|]+)(?:\|([^}|]+))?\x7d\x7d` -/
def PREFIX_TEMPLATE : List RItem :=
  [litCI (String.toList "\x7b\x7bprefix|en|"), RItem.cap 1 nbp 1 false,
   litM ("|".toList), RItem.cap 2 nbp 1 false,
   RItem.optG (litM ("|".toList)) (RItem.cap 3 nbp 1 false), litM [rb, rb]]

/-- `(?i)\x7b\x7baf(?:fix)?\|en\|([^}]+)\x7d\x7d` -/
def AFFIX_TEMPLATE : List RItem :=
  [litCI (String.toList "\x7b\x7baf"),
   RItem.optG (litCI ("fix".toList)) epsI,
   litCI ("|en|".toList), RItem.cap 1 nrb 1 false, litM [rb, rb]]

/-- `(?i)\x7b\x7bcompound\|en\|([^}]+)\x7d\x7d` -/
def COMPOUND_TEMPLATE : List RItem :=
  [litCI (String.toList "\x7b\x7bcompound|en|"), RItem.cap 1 nrb 1 false,
   litM [rb, rb]]

/-- `(?i)\x7b\x7bsurf\|en\|([^}]+)\x7d\x7d` -/
def SURF_TEMPLATE : List RItem :=
  [litCI (String.toList "\x7b\x7bsurf|en|"), RItem.cap 1 nrb 1 false,
   litM [rb, rb]]

/-- `(?i)\x7b\x7bconfix\|en\|([^}|]+)\|([^}|]+)\|([^}|]+)(?:\|([^}|]+))?\x7d\x7d` -/
def CONFIX_TEMPLATE : List RItem :=
  [litCI (String.toList "\x7b\x7bconfix|en|"), RItem.cap 1 nbp 1 false,
   litM ("|".toList), RItem.cap 2 nbp 1 false,
   litM ("|".toList), RItem.cap 3 nbp 1 false,
   RItem.optG (litM ("|".toList)) (RItem.cap 4 nbp 1 false), litM [rb, rb]]

/-- `\[\[([^\]|]+)(?:\|[^\]]+)?\]\]`, the wikilink-stripping pattern. -/
def WIKILINK_PATTERN : List RItem :=
  [litM ("[[".toList), RItem.cap 1 (fun c => c != ']' && c != '|') 1 false,
   RItem.optG (litM ("|".toList)) (RItem.cls (fun c => c != ']') 1 false),
   litM ("]]".toList)]

/-- `(?i)\x7b\x7b(?:tlb|lb)\|en\|([^}]+)\x7d\x7d` -/
def TLB_TEMPLATE : List RItem :=
  [litM [lb, lb], RItem.altL [("tlb".toList), ("lb".toList)] true,
   litCI ("|en|".toList), RItem.cap 1 nrb 1 false, litM [rb, rb]]

/-- `<[^>]+>`, the HTML-like tag stripper of `clean_template_components`. -/
def TAG_PATTERN : List RItem :=
  [litM ("<".toList), RItem.cls (fun c => c != '>') 1 false,
   litM (">".toList)]

/-- The `INFLECTION_TEMPLATES` table: each entry is
`(?i)\x7b\x7b<name>\|en\|([^|}]+)` (the third-person entry carries the
two-branch alternation of the source). -/
def INFLECTION_TEMPLATES : List (List RItem) :=
  [[litCI (String.toList "\x7b\x7bplural of|en|"), RItem.cap 1 nbp 1 false],
   [litCI (String.toList "\x7b\x7bpast tense of|en|"), RItem.cap 1 nbp 1 false],
   [litCI (String.toList "\x7b\x7bpast participle of|en|"), RItem.cap 1 nbp 1 false],
   [litCI (String.toList "\x7b\x7bpresent participle of|en|"), RItem.cap 1 nbp 1 false],
   [litM [lb, lb],
    RItem.altL [("en-third-person singular of".toList),
      ("third-person singular of".toList)] true,
    litCI ("|en|".toList), RItem.cap 1 nbp 1 false],
   [litCI (String.toList "\x7b\x7bcomparative of|en|"), RItem.cap 1 nbp 1 false],
   [litCI (String.toList "\x7b\x7bsuperlative of|en|"), RItem.cap 1 nbp 1 false],
   [litCI (String.toList "\x7b\x7binflection of|en|"), RItem.cap 1 nbp 1 false]]

/-- `(?i)^[a-z]{2,4}:` anchored at the string start (`LANG_CODE` match):
two to four ASCII letters followed by a colon. -/
def langCodeMatch (s : Str) : Bool :=
  [2, 3, 4].any (fun k =>
    (s.take k).length == k && (s.take k).all isAsciiAlpha &&
      (s.getD k ' ') == ':')

/-!
Port of the recursive-descent `WikitextParser`.  The parser state (a text
and a byte position) becomes the remaining character list; each function
returns its value together with the rest of the input.  The source
recurses on the call stack without a depth counter; the port carries a
fuel argument decremented at every call, and the top-level entry point
supplies `4 * length + 16` fuel, which dominates the source's call count
(every two consecutive calls consume at least one character).
-/

/-- Port of `parse_wikilink`: `"[[" target ("#" anchor)? ("|" display)?
"]]"`, yielding the display when present, else the target, plus the rest
of the input.  No recursion occurs in the source function. -/
def wpWikilink (s : Str) : Str × Str :=
  let s1 := s.drop 2
  let target := s1.takeWhile (fun c => c != '#' && c != '|' && c != ']')
  let r1 := s1.dropWhile (fun c => c != '#' && c != '|' && c != ']')
  let r2 :=
    if r1.head? == some '#' then
      (r1.drop 1).dropWhile (fun c => c != '|' && c != ']')
    else r1
  let dispRest : Option Str × Str :=
    if r2.head? == some '|' then
      let d := (r2.drop 1).takeWhile (fun c => c != ']')
      (some d, (r2.drop 1).dropWhile (fun c => c != ']'))
    else (none, r2)
  let r3 :=
    if startsWithLit dispRest.2 ("]]".toList) then dispRest.2.drop 2
    else dispRest.2
  ((dispRest.1.getD target), r3)

mutual

/-- Port of the loop body of `parse_param`: consume elements until an
unescaped `|` or the end, appending wikilink text and discarding nested
templates. -/
def wpParamLoop : Nat → Str → Str → Str × Str
  | 0, acc, s => (acc, s)
  | fuel + 1, acc, s =>
    match s with
    | [] => (acc, [])
    | c :: rest =>
      if c == '|' then (acc, s)
      else if startsWithLit s ("[[".toList) then
        let w := wpWikilink s
        wpParamLoop fuel (acc ++ w.1) w.2
      else if c == lb && rest.head? == some lb then
        let r := wpTemplate fuel s
        wpParamLoop fuel acc r
      else wpParamLoop fuel (acc ++ [c]) rest

/-- Port of `parse_template`: `"\x7b\x7b" params "\x7d\x7d"`; the parsed
name and parameters are discarded exactly as in the source, so only the
rest of the input is returned. -/
def wpTemplate : Nat → Str → Str
  | 0, s => s
  | fuel + 1, s =>
    let r := wpTplParamsInner fuel (s.drop 2)
    if startsWithLit r ("\x7d\x7d".toList) then r.drop 2 else r

/-- Port of `parse_template_params_inner` (only the rest of the input is
needed, the parameter texts being discarded by `parse_template`). -/
def wpTplParamsInner : Nat → Str → Str
  | 0, s => s
  | fuel + 1, s =>
    if s.isEmpty || startsWithLit s ("\x7d\x7d".toList) then s
    else
      let r := wpTplParamInner fuel [] s
      if r.head? == some '|' then wpTplParamsInner fuel (r.drop 1)
      else r

/-- Port of the loop of `parse_template_param_inner`. -/
def wpTplParamInner : Nat → Str → Str → Str
  | 0, _, s => s
  | fuel + 1, acc, s =>
    match s with
    | [] => []
    | c :: rest =>
      if c == '|' || startsWithLit s ("\x7d\x7d".toList) then s
      else if startsWithLit s ("[[".toList) then
        let w := wpWikilink s
        wpTplParamInner fuel (acc ++ w.1) w.2
      else if c == lb && rest.head? == some lb then
        let r := wpTemplate fuel s
        wpTplParamInner fuel acc r
      else wpTplParamInner fuel (acc ++ [c]) rest

end

/-- Port of `parse_param` (the element loop followed by `trim`). -/
def wpParam (fuel : Nat) (s : Str) : Str × Str :=
  let r := wpParamLoop fuel [] s
  (trimL r.1, r.2)

/-- Port of `parse_params`: `param ("|" param)*`. -/
def wpParams : Nat → Str → List Str
  | 0, _ => []
  | fuel + 1, s =>
    if s.isEmpty then []
    else
      let r := wpParam fuel s
      if r.2.head? == some '|' then r.1 :: wpParams fuel (r.2.drop 1)
      else [r.1]

/-- Port of `parse_template_params`, the bracket-aware parameter splitter. -/
def parse_template_params (content : Str) : List Str :=
  wpParams (4 * content.length + 16) content

/-!
Morphology extraction (`wiktionary-scanner-rust/src/main.rs`).
-/

/-- Port of `strip_wikilinks`. -/
def strip_wikilinks (s : Str) : Str :=
  if containsLit s ("[[".toList) || containsLit s ("]]".toList) then
    replaceLit (regexReplaceAll WIKILINK_PATTERN s true) ("]]".toList) []
  else s

/-- Port of `clean_template_components`: trim, drop empty or
parameter-like (`=`) parts, drop language-code-prefixed parts, decode the
basic HTML entities, strip HTML-like tags. -/
def clean_template_components (parts : List Str) : List Str :=
  parts.filterMap (fun part0 =>
    let part := trimL part0
    if part.isEmpty || part.contains '=' then none
    else if langCodeMatch part then none
    else
      let part :=
        if containsLit part ("&lt;".toList) || containsLit part ("&gt;".toList) ||
            containsLit part ("&amp;".toList) then
          replaceLit
            (replaceLit (replaceLit part ("&lt;".toList) ("<".toList))
              ("&gt;".toList) (">".toList))
            ("&amp;".toList) ("&".toList)
        else part
      let part :=
        if part.contains '<' || part.contains '>' then
          regexReplaceAll TAG_PATTERN part false
        else part
      if part.isEmpty then none else some part)

/-- The `Morphology` record of the scanner (interfixes included; the
legacy tool's record lacks that field and is embedded with it empty). -/
structure Morphology where
  morph_type : Str
  base : Option Str
  components : List Str
  prefixes : List Str
  suffixes : List Str
  interfixes : List Str
  is_compound : Bool
  etymology_template : Str
deriving DecidableEq

/-- Component starts with the joiner mark. -/
def startsDash (c : Str) : Bool := c.head? == some '-'

/-- Component ends with the joiner mark. -/
def endsDash (c : Str) : Bool := c.getLast? == some '-'

/-- The single-pass fold of `classify_morphology` partitioning components
into (prefixes, suffixes, interfixes, bases) by their joiner-mark pattern. -/
def classifyParts (components : List Str) :
    List Str × List Str × List Str × List Str :=
  components.foldl
    (fun acc c =>
      match startsDash c, endsDash c with
      | false, true => (acc.1 ++ [c], acc.2.1, acc.2.2.1, acc.2.2.2)
      | true, false => (acc.1, acc.2.1 ++ [c], acc.2.2.1, acc.2.2.2)
      | true, true => (acc.1, acc.2.1, acc.2.2.1 ++ [c], acc.2.2.2)
      | false, false => (acc.1, acc.2.1, acc.2.2.1, acc.2.2.2 ++ [c]))
    ([], [], [], [])

/-- Port of `classify_morphology`. -/
def classify_morphology (components : List Str) (etymology_template : Str) :
    Morphology :=
  let parts := classifyParts components
  let prefixes := parts.1
  let suffixes := parts.2.1
  let interfixes := parts.2.2.1
  let bases := parts.2.2.2
  let has_pre := !prefixes.isEmpty
  let has_suf := !suffixes.isEmpty
  let mtic : Str × Bool :=
    if has_pre && has_suf then ("affixed".toList, false)
    else if has_pre then ("prefixed".toList, false)
    else if has_suf then ("suffixed".toList, false)
    else if bases.length ≥ 2 then ("compound".toList, true)
    else ("simple".toList, false)
  let base := if !mtic.2 then bases.head? else none
  ⟨mtic.1, base, components, prefixes, suffixes, interfixes, mtic.2,
    etymology_template⟩

/-- The `cap[0]` string of a match result. -/
def matchedStr (text : Str) (r : Nat × Nat × List (Nat × Str)) : Str :=
  (text.drop r.1).take (r.2.1 - r.1)

/-- The shared variable-arity branch of `extract_morphology_components`:
on a match, parse and clean the parameter list and succeed only with at
least two components. -/
def tryVarTemplate (items : List RItem) (etymology_text : Str) :
    Option (List Str × Str) :=
  match regexFind items false etymology_text with
  | none => none
  | some r =>
    let parts := parse_template_params ((getCap r.2.2 1).getD [])
    let components := clean_template_components parts
    if components.length ≥ 2 then
      some (components, matchedStr etymology_text r)
    else none

/-- The suffix branch of `extract_morphology_components`:
`\x7b\x7bsuffix|en|base|suffix\x7d\x7d` with the leading joiner added to the
suffix when missing. -/
def suffixShape (etymology_text : Str) : Option (List Str × Str) :=
  match regexFind SUFFIX_TEMPLATE false etymology_text with
  | none => none
  | some r =>
    let base := strip_wikilinks (trimL ((getCap r.2.2 1).getD []))
    let suf0 := strip_wikilinks (trimL ((getCap r.2.2 2).getD []))
    let suf := if !startsDash suf0 then '-' :: suf0 else suf0
    some ([base, suf], matchedStr etymology_text r)

/-- The prefix branch: `\x7b\x7bprefix|en|prefix|base\x7d\x7d` with the trailing
joiner added to the prefix when missing. -/
def prefixShape (etymology_text : Str) : Option (List Str × Str) :=
  match regexFind PREFIX_TEMPLATE false etymology_text with
  | none => none
  | some r =>
    let pre0 := strip_wikilinks (trimL ((getCap r.2.2 1).getD []))
    let base := strip_wikilinks (trimL ((getCap r.2.2 2).getD []))
    let pre := if !endsDash pre0 then pre0 ++ ['-'] else pre0
    some ([pre, base], matchedStr etymology_text r)

/-- The confix branch: `\x7b\x7bconfix|en|prefix|base|suffix\x7d\x7d` with both
joiners normalized. -/
def confixShape (etymology_text : Str) : Option (List Str × Str) :=
  match regexFind CONFIX_TEMPLATE false etymology_text with
  | none => none
  | some r =>
    let pre0 := strip_wikilinks (trimL ((getCap r.2.2 1).getD []))
    let base := strip_wikilinks (trimL ((getCap r.2.2 2).getD []))
    let suf0 := strip_wikilinks (trimL ((getCap r.2.2 3).getD []))
    let pre := if !endsDash pre0 then pre0 ++ ['-'] else pre0
    let suf := if !startsDash suf0 then '-' :: suf0 else suf0
    some ([pre, base, suf], matchedStr etymology_text r)

/-- Port of `extract_morphology_components`: the sequence of early
returns of the source — suffix, prefix, confix, then the variable-arity
loop over compound, affix, surf — written as an `orElse` chain. -/
def extract_morphology_components (etymology_text : Str) :
    Option (List Str × Str) :=
  (suffixShape etymology_text).orElse fun _ =>
    (prefixShape etymology_text).orElse fun _ =>
      (confixShape etymology_text).orElse fun _ =>
        (tryVarTemplate COMPOUND_TEMPLATE etymology_text).orElse fun _ =>
          (tryVarTemplate AFFIX_TEMPLATE etymology_text).orElse fun _ =>
            tryVarTemplate SURF_TEMPLATE etymology_text

/-- The etymology-subsection text that `extract_morphology` searches:
capture group 1 of `ETYMOLOGY_SECTION`, truncated at the next `\n===`. -/
def etymologySubsection (text : Str) : Option Str :=
  match regexCapture ETYMOLOGY_SECTION false text 1 with
  | none => none
  | some ety0 =>
    some
      (match regexFind NEXT_SECTION false ety0 with
       | some r => ety0.take r.1
       | none => ety0)

/-- Port of `extract_morphology` (scanner version), including the confix
special case that bypasses `classify_morphology`. -/
def extract_morphology (text : Str) : Option Morphology :=
  match etymologySubsection text with
  | none => none
  | some ety =>
    match extract_morphology_components ety with
    | none => none
    | some ct =>
      let components := ct.1
      let template_str := ct.2
      if containsLit (lowerL template_str) ("confix".toList) then
        some
          ⟨"circumfixed".toList, components[1]?, components,
            [components.getD 0 []],
            (match components[2]? with
             | some s => [s]
             | none => []),
            [], false, template_str⟩
      else some (classify_morphology components template_str)

/-!
Syllable estimation (`wiktionary-scanner-rust/src/main.rs`).
-/

/-- Digit-run to number, for `str::parse::<usize>()` on a `\d+` capture
(only ASCII digits, value below `2^64`). -/
def digitsToNat (s : Str) : Nat :=
  s.foldl (fun a c => a * 10 + (c.toNat - 0x30)) 0

/-- Rust `parse::<usize>().ok()` on a captured digit run. -/
def parseUsize (s : Str) : Option Nat :=
  if !s.isEmpty && s.all isAsciiDigit then
    let v := digitsToNat s
    if v < 2 ^ 64 then some v else none
  else none

/-- Rust `str::len()`: the UTF-8 byte length. -/
def byteLen (s : Str) : Nat := (s.map Char.utf8Size).sum

/-- Port of `extract_syllable_count_from_rhymes`. -/
def extract_syllable_count_from_rhymes (text : Str) : Option Nat :=
  (regexCapture RHYMES_SYLLABLE false text 1).bind parseUsize

/-- Port of `extract_syllable_count_from_categories`. -/
def extract_syllable_count_from_categories (text : Str) : Option Nat :=
  (regexCapture SYLLABLE_CATEGORY false text 1).bind parseUsize

/-- The prefix of `s` before the first occurrence of `pat` (whole `s`
when absent): `split(pat).next()`. -/
def splitFirstLit (s pat : Str) : Str :=
  match (List.range (s.length + 1)).find?
      (fun i => (s.drop i).take pat.length == pat) with
  | some i => s.take i
  | none => s

/-- Split on a separator character, Rust `str::split(char)`. -/
def splitCharAux (sep : Char) : Nat → Str → List Str
  | 0, _ => []
  | _, [] => [[]]
  | fuel + 1, s =>
    let piece := s.takeWhile (fun c => c != sep)
    let rest := s.dropWhile (fun c => c != sep)
    match rest with
    | [] => [piece]
    | _ :: rest2 => piece :: splitCharAux sep fuel rest2

/-- Rust `str::split(sep)` collected into a list. -/
def splitChar (sep : Char) (s : Str) : List Str :=
  splitCharAux sep (s.length + 1) s

/-- Port of `extract_syllable_count_from_hyphenation`, including the
single-long-segment discard heuristic (byte length above 3). -/
def extract_syllable_count_from_hyphenation (text : Str) : Option Nat :=
  match regexCapture HYPHENATION_TEMPLATE false text 1 with
  | none => none
  | some content =>
    let firstAlt := splitFirstLit content ("||".toList)
    let parts := splitChar '|' firstAlt
    let sylls := parts.filterMap (fun p =>
      let p := trimL p
      if p.isEmpty || p.contains '=' then none else some p)
    if sylls.length == 1 && byteLen (sylls.getD 0 []) > 3 then none
    else if sylls.isEmpty then none
    else some sylls.length

/-- The syllabic-consonant combining marker U+0329. -/
def syllabicMarker : Char := Char.ofNat 0x329

/-- The IPA monophthong vowel table of `count_syllables_from_ipa`. -/
def ipaVowel (c : Char) : Bool :=
  c == 'i' || c == 'ɪ' || c == 'e' || c == 'ɛ' || c == 'æ' || c == 'a' ||
  c == 'ɑ' || c == 'ɒ' || c == 'ɔ' || c == 'o' || c == 'ʊ' || c == 'u' ||
  c == 'ʌ' || c == 'ə' || c == 'ɜ' || c == 'ɝ' || c == 'ɐ' || c == 'ᵻ' ||
  c == 'ᵿ' || c == 'ɚ'

/-- The length/nasalization/tie-bar diacritics skipped after a vowel
(the source lists the U+032F non-syllabic diacritic twice, as an escape
and as a literal; the disjunction is the same). -/
def ipaSkipChar (c : Char) : Bool :=
  c == 'ː' || c == 'ˑ' || c == Char.ofNat 0x303 || c == Char.ofNat 0x32F ||
  c == Char.ofNat 0x361 || c == Char.ofNat 0x32F

/-- The off-glide vowels skipped once after a counted vowel. -/
def offglide (c : Char) : Bool :=
  c == 'ɪ' || c == 'ʊ' || c == 'ə' || c == 'ɐ'

/-- The inner skip loop of `count_syllables_from_ipa`: consume diacritics
freely and at most one off-glide vowel. -/
def skipGlides : Str → Bool → Str
  | [], _ => []
  | c :: rest, skipped =>
    if ipaSkipChar c then skipGlides rest skipped
    else if !skipped && offglide c then skipGlides rest true
    else c :: rest

/-- The main loop of `count_syllables_from_ipa`: a character followed by
the syllabic marker counts one syllable (consuming both); otherwise a
vowel counts one and the off-glide skip runs; otherwise advance.  Each
iteration consumes at least one character, so the `length + 1` fuel the
wrapper supplies can never run out. -/
def ipaLoop : Nat → Str → Nat → Nat
  | 0, _, n => n
  | _ + 1, [], n => n
  | _ + 1, [c], n => if ipaVowel c then n + 1 else n
  | fuel + 1, c :: c2 :: rest, n =>
    if c2 == syllabicMarker then ipaLoop fuel rest (n + 1)
    else if ipaVowel c then ipaLoop fuel (skipGlides (c2 :: rest) false) (n + 1)
    else ipaLoop fuel (c2 :: rest) n

/-- Port of `count_syllables_from_ipa`. -/
def count_syllables_from_ipa (ipa : Str) : Nat := ipaLoop (ipa.length + 1) ipa 0

/-- Port of `extract_syllable_count_from_ipa`, with the implausible-count
discard (zero or above 15). -/
def extract_syllable_count_from_ipa (text : Str) : Option Nat :=
  match regexCapture IPA_TEMPLATE false text 1 with
  | none => none
  | some tc =>
    match regexCapture IPA_TRANSCRIPTION false tc 1 with
    | none => none
    | some ipa =>
      let count := count_syllables_from_ipa ipa
      if count == 0 || count > 15 then none else some count

/-- The syllable priority chain of the scanner's `parse_page`
(`rhymes.or_else(ipa).or_else(categories).or_else(hyphenation)`). -/
def syllablesOfText (t : Str) : Option Nat :=
  (extract_syllable_count_from_rhymes t).orElse fun _ =>
    (extract_syllable_count_from_ipa t).orElse fun _ =>
      (extract_syllable_count_from_categories t).orElse fun _ =>
        extract_syllable_count_from_hyphenation t

/-- The syllable priority chain of the legacy tool's `parse_page`
(`wiktionary-rust/src/main.rs`, lines 850-852:
`hyphenation.or_else(rhymes).or_else(categories)`; the legacy tool has no
IPA signal, and its three extractor functions and regexes are
character-for-character identical to the scanner's). -/
def legacySyllablesOfText (t : Str) : Option Nat :=
  (extract_syllable_count_from_hyphenation t).orElse fun _ =>
    (extract_syllable_count_from_rhymes t).orElse fun _ =>
      extract_syllable_count_from_categories t

/-!
The script predicate `is_englishlike`.  The source first NFC-normalizes
the token; the embedding takes the normalized character sequence as its
input (every concrete token below is NFC-invariant).
-/

/-- The punctuation allow-list of `is_englishlike`. -/
def allowedPunct (c : Char) : Bool :=
  c == Char.ofNat 0x2019 || c == Char.ofNat 0x27 || c == Char.ofNat 0x2018 ||
  c == '-' || c == Char.ofNat 0x2013 || c == '.' || c == '/'

/-- The forbidden characters of `is_englishlike`. -/
def forbiddenChar (c : Char) : Bool :=
  c == '&' || c == ';' || c == '<' || c == '>'

/-- The character walk of the scanner's `is_englishlike`
(`wiktionary-scanner-rust/src/main.rs`, lines 452-489). -/
def englishWalk : Str → Bool → Bool
  | [], saw => saw
  | ch :: rest, saw =>
    if ch == ' ' then englishWalk rest saw
    else if forbiddenChar ch then false
    else if ch.toNat < 128 then englishWalk rest (saw || isAlphabeticM ch)
    else if isAlphabeticM ch then
      if 0xC0 ≤ ch.toNat && ch.toNat ≤ 0x24F then englishWalk rest true
      else false
    else if allowedPunct ch then englishWalk rest saw
    else if 0x300 ≤ ch.toNat && ch.toNat ≤ 0x36F then false
    else if ch.toNat > 0xFFFF || (0x1F000 ≤ ch.toNat && ch.toNat ≤ 0x1FFFF) then
      false
    else englishWalk rest saw

/-- Port of the scanner's `is_englishlike` on the normalized token. -/
def is_englishlike (token : Str) : Bool :=
  if token.any (fun ch => ch != ' ' && isRustWhitespace ch) then false
  else if (trimL token).isEmpty then false
  else englishWalk token false

/-- The character walk of the legacy tool's `is_englishlike`
(`wiktionary-rust/src/main.rs`, lines 332-358): non-ASCII characters that
are neither alphabetic nor allow-listed punctuation fall through without
rejection. -/
def legacyEnglishWalk : Str → Bool → Bool
  | [], saw => saw
  | ch :: rest, saw =>
    if ch == ' ' then legacyEnglishWalk rest saw
    else if forbiddenChar ch then false
    else if ch.toNat < 128 then legacyEnglishWalk rest (saw || isAlphabeticM ch)
    else if isAlphabeticM ch then
      if 0xC0 ≤ ch.toNat && ch.toNat ≤ 0x24F then legacyEnglishWalk rest true
      else false
    else legacyEnglishWalk rest saw

/-- Port of the legacy tool's `is_englishlike` on the normalized token. -/
def legacy_is_englishlike (token : Str) : Bool :=
  if token.any (fun ch => ch != ' ' && isRustWhitespace ch) then false
  else if (trimL token).isEmpty then false
  else legacyEnglishWalk token false

/-!
Entry assembly (`parse_page` and its helpers).  The external YAML
configuration (POS map, label vocabularies, reserved title prefixes) is
the injected read-only `ScanConfig`.
-/

/-- The injected configuration tables (`get_pos_map`, `get_*_labels`,
`get_special_prefixes` in the source). -/
structure ScanConfig where
  posMap : List (Str × Str)
  registerLabels : List Str
  temporalLabels : List Str
  domainLabels : List Str
  regionLabels : List (Str × Str)
  spellingLabels : List (Str × Str)
  specialPages : List Str
deriving DecidableEq

/-- `HashMap::get` on a configuration table (keys are distinct). -/
def lookupAssoc (m : List (Str × Str)) (k : Str) : Option Str :=
  (m.find? (fun p => p.1 == k)).map (·.2)

/-- Index of the first occurrence of the literal `pat` (Rust
`str::find(&str)`). -/
def findLitIdx (s pat : Str) : Option Nat :=
  (List.range (s.length + 1)).find?
    (fun i => (s.drop i).take pat.length == pat)

/-- Maximal non-whitespace runs, Rust `str::split_whitespace()`. -/
def wsRuns : Nat → Str → List Str
  | 0, _ => []
  | fuel + 1, s =>
    match s.dropWhile isRustWhitespace with
    | [] => []
    | c :: rest =>
      ((c :: rest).takeWhile (fun x => !isRustWhitespace x)) ::
        wsRuns fuel ((c :: rest).dropWhile (fun x => !isRustWhitespace x))

/-- `split_whitespace()` collected (the fuel covers the run count). -/
def splitWhitespaceL (s : Str) : List Str := wsRuns (s.length + 1) s

/-- `split_whitespace().collect::<Vec<_>>().join(" ")`, the header
normalization. -/
def normalizeWs (s : Str) : Str :=
  List.intercalate (" ".toList) (splitWhitespaceL s)

/-- Lexicographic order on strings by code point (equal to the byte order
Rust's `String` sort uses, since UTF-8 preserves code-point order). -/
def strLe : Str → Str → Bool
  | [], _ => true
  | _ :: _, [] => false
  | a :: as0, b :: bs0 =>
    a.toNat < b.toNat || (a == b && strLe as0 bs0)

/-- Stable insertion of `x` into a sorted list. -/
def insertSorted (x : Str) : List Str → List Str
  | [] => [x]
  | y :: ys => if strLe x y then x :: y :: ys else y :: insertSorted x ys

/-- Ascending sort, the `Vec::sort()` of the label lists. -/
def sortStrs (l : List Str) : List Str := l.foldr insertSorted []

/-- A `HashSet` collected and sorted: distinct elements in ascending
order. -/
def setSorted (l : List Str) : List Str := sortStrs l.dedup

/-- Port of `extract_labels_from_line`: classify each comma/pipe-separated
argument of every inline label template into the four vocabularies,
returning `(register, region, domain, temporal)` deduplicated and sorted. -/
def extract_labels_from_line (cfg : ScanConfig) (line : Str) :
    List Str × List Str × List Str × List Str :=
  let labels :=
    ((regexIter CONTEXT_LABEL false line).map
      (fun m => splitChar '|' ((getCap m.2.2 1).getD []))).flatten
  let labels := labels.map (fun l => lowerL (trimL l))
  let register := labels.filter (fun l => cfg.registerLabels.any (· == l))
  let temporal := labels.filter (fun l =>
    !cfg.registerLabels.any (· == l) && cfg.temporalLabels.any (· == l))
  let domain := labels.filter (fun l =>
    !cfg.registerLabels.any (· == l) && !cfg.temporalLabels.any (· == l) &&
      cfg.domainLabels.any (· == l))
  let region := labels.filterMap (fun l =>
    if !cfg.registerLabels.any (· == l) && !cfg.temporalLabels.any (· == l) &&
        !cfg.domainLabels.any (· == l) then
      lookupAssoc cfg.regionLabels l
    else none)
  (setSorted register, setSorted region, setSorted domain, setSorted temporal)

/-- Port of `extract_english_section`: from the end of the first
(case-insensitive) target-language header to the first language header
whose name is not the target language. -/
def extract_english_section (text : Str) : Option Str :=
  match regexFind ENGLISH_SECTION false text with
  | none => none
  | some em0 =>
    let sub := text.drop em0.2.1
    match
      (regexIter LANGUAGE_SECTION true sub).find? (fun m =>
        !eqCI (trimL (trimMatches '=' (matchedStr sub m))) ("english".toList))
    with
    | some m => some (sub.take m.1)
    | none => some sub

/-- Port of `parse_pos_sections`: headers mapped through the POS table,
each section sliced up to the next mapped header, keeping sections with at
least one definition line. -/
def parse_pos_sections (cfg : ScanConfig) (et : Str) : List (Str × List Str) :=
  let headers := (regexIter POS_HEADER true et).filterMap (fun m =>
    let hn := normalizeWs (lowerL ((getCap m.2.2 1).getD []))
    (lookupAssoc cfg.posMap hn).map (fun mapped => (m.1, mapped)))
  let bounds := headers.zip ((headers.map (·.1)).drop 1 ++ [et.length])
  bounds.filterMap (fun hb =>
    let sec := (et.drop hb.1.1).take (hb.2 - hb.1.1)
    let defs := (regexIter DEFINITION_LINE true sec).map
      (fun m => (getCap m.2.2 1).getD [])
    if defs.isEmpty then none else some (hb.1.2, defs))

/-- The phrase-type names recognized from section headers. -/
def phraseHeaderNames : List Str :=
  [("idiom".toList), ("proverb".toList), ("prepositional phrase".toList),
   ("adverbial phrase".toList), ("verb phrase".toList),
   ("verb phrase form".toList), ("noun phrase".toList)]

/-- The phrase-type names recognized from head templates (the header list
minus the `verb phrase form` entry, as in the source). -/
def phraseHeadNames : List Str :=
  [("idiom".toList), ("proverb".toList), ("prepositional phrase".toList),
   ("adverbial phrase".toList), ("verb phrase".toList),
   ("noun phrase".toList)]

/-- The category fallbacks of `extract_phrase_type`. -/
def phraseCategoryTable : List (Str × Str) :=
  [(("Category:English idioms".toList), ("idiom".toList)),
   (("Category:English proverbs".toList), ("proverb".toList)),
   (("Category:English prepositional phrases".toList), ("prepositional phrase".toList)),
   (("Category:English adverbial phrases".toList), ("adverbial phrase".toList)),
   (("Category:English verb phrases".toList), ("verb phrase".toList)),
   (("Category:English noun phrases".toList), ("noun phrase".toList)),
   (("Category:English sayings".toList), ("proverb".toList))]

/-- Port of `extract_phrase_type`: section headers, then head templates,
then the prepositional-phrase template, then category markers. -/
def extract_phrase_type (text : Str) : Option Str :=
  ((regexIter POS_HEADER true text).findSome? (fun m =>
    let header := normalizeWs (trimL (lowerL ((getCap m.2.2 1).getD [])))
    if phraseHeaderNames.any (· == header) then some header
    else if header == ("saying".toList) || header == ("adage".toList) then
      some ("proverb".toList)
    else none)).orElse fun _ =>
  ((regexIter HEAD_TEMPLATE false text).findSome? (fun m =>
    let pos := trimL (lowerL ((getCap m.2.2 1).getD []))
    if phraseHeadNames.any (· == pos) then some pos
    else if pos == ("saying".toList) || pos == ("adage".toList) then
      some ("proverb".toList)
    else none)).orElse fun _ =>
  (if regexIsMatch PREP_PHRASE_TEMPLATE false text then
    some ("prepositional phrase".toList)
  else none).orElse fun _ =>
  phraseCategoryTable.findSome? (fun p =>
    if containsLit text p.1 then some p.2 else none)

/-- The wikilink-removal loop of `clean_lemma` (each iteration removes one
`[[ .. ]]` pair, so the input length bounds the iteration count). -/
def cleanLemmaLinks : Nat → Str → Str
  | 0, s => s
  | fuel + 1, s =>
    match findLitIdx s ("[[".toList) with
    | none => s
    | some start =>
      let rest := s.drop start
      match findLitIdx rest ("]]".toList) with
      | none => s.take start
      | some endRel =>
        let linkContent := (rest.take endRel).drop 2
        let cleaned :=
          if linkContent.contains '|' then
            (splitChar '|' linkContent).getD 0 []
          else linkContent
        let cleaned := cleaned.dropWhile (fun c => c == ':')
        let cleaned :=
          if cleaned.contains ':' then
            ((splitChar ':' cleaned).getLast?).getD cleaned
          else cleaned
        cleanLemmaLinks fuel
          (s.take start ++ cleaned ++ rest.drop (endRel + 2))

/-- The template-removal loop of `clean_lemma`. -/
def cleanLemmaTpls : Nat → Str → Str
  | 0, s => s
  | fuel + 1, s =>
    match findLitIdx s ("\x7b\x7b".toList) with
    | none => s
    | some start =>
      let rest := s.drop start
      match findLitIdx rest ("\x7d\x7d".toList) with
      | none => s.take start
      | some endRel =>
        cleanLemmaTpls fuel (s.take start ++ rest.drop (endRel + 2))

/-- Port of `clean_lemma`: strip the section anchor, wikilinks, templates,
stray closers and double slashes, then trim. -/
def clean_lemma (raw : Str) : Str :=
  let r := raw.takeWhile (fun c => c != '#')
  let r := cleanLemmaLinks (r.length + 1) r
  let r := replaceLit r ("]]".toList) []
  let r := cleanLemmaTpls (r.length + 1) r
  let r := replaceLit r ("\x7d\x7d".toList) []
  let r := replaceLit r ("//".toList) []
  trimL r

/-- Port of `extract_lemma`: the first inflection template whose cleaned,
lowercased lemma is nonempty and passes the script predicate. -/
def extract_lemma (text : Str) : Option Str :=
  INFLECTION_TEMPLATES.findSome? (fun items =>
    match regexCapture items false text 1 with
    | none => none
    | some cap1 =>
      let lem := lowerL (clean_lemma (trimL cap1))
      if !lem.isEmpty && is_englishlike lem then some lem else none)

/-- Port of `extract_spelling_region`: the first spelling-variant label of
any head-line annotation template. -/
def extract_spelling_region (cfg : ScanConfig) (text : Str) : Option Str :=
  (regexIter TLB_TEMPLATE false text).findSome? (fun m =>
    (splitChar '|' ((getCap m.2.2 1).getD [])).findSome? (fun label =>
      lookupAssoc cfg.spellingLabels (lowerL (trimL label))))

/-- The flat per-sense output record of the scanner (the source's `lemma`
field is `lemmaStr` here, `lemma` being a Lean keyword). -/
structure Entry where
  word : Str
  pos : Str
  word_count : Nat
  is_abbreviation : Bool
  is_inflected : Bool
  is_phrase : Bool
  syllables : Option Nat
  phrase_type : Option Str
  lemmaStr : Option Str
  domain_tags : List Str
  region_tags : List Str
  register_tags : List Str
  temporal_tags : List Str
  spelling_region : Option Str
  morphology : Option Morphology
deriving DecidableEq

/-- Port of the scanner's `parse_page`: one entry per definition line of
every mapped part-of-speech section, or a single `unknown` entry backed by
secondary English-content signals, or nothing. -/
def parse_page (cfg : ScanConfig) (title text : Str) : List Entry :=
  let word := trimL title
  match extract_english_section text with
  | none => []
  | some et =>
    let word_count := (splitWhitespaceL word).length
    let phrase_type := if word_count > 1 then extract_phrase_type et else none
    let syllables := syllablesOfText et
    let morphology := extract_morphology et
    let is_abbreviation := regexIsMatch ABBREVIATION_TEMPLATE false et
    let lem := extract_lemma et
    let is_inflected := lem.isSome ||
      regexIsMatch INFLECTION_TEMPLATE_EXISTS false et ||
      containsLit et ("Category:English verb forms".toList) ||
      containsLit et ("Category:English noun forms".toList) ||
      containsLit et ("Category:English adjective forms".toList) ||
      containsLit et ("Category:English adverb forms".toList) ||
      containsLit et ("Category:English plurals".toList)
    let spelling_region := extract_spelling_region cfg et
    let pos_sections := parse_pos_sections cfg et
    if pos_sections.isEmpty then
      let has_categories := containsLit (lowerL et) ("category:english".toList)
      let has_en_templates :=
        containsLit et (String.toList "\x7b\x7ben-noun") ||
        containsLit et (String.toList "\x7b\x7ben-verb") ||
        containsLit et (String.toList "\x7b\x7ben-adj") ||
        containsLit et (String.toList "\x7b\x7ben-adv")
      let has_definition_templates := regexIsMatch DEFINITION_TEMPLATES false et
      if has_categories || has_en_templates || has_definition_templates then
        [⟨word, ("unknown".toList), word_count, is_abbreviation, is_inflected,
          word_count > 1, syllables, phrase_type, lem, [], [], [], [],
          spelling_region, morphology⟩]
      else []
    else
      pos_sections.flatMap (fun sec =>
        sec.2.map (fun defLine =>
          let tags := extract_labels_from_line cfg defLine
          ⟨word, sec.1, word_count, is_abbreviation, is_inflected,
            word_count > 1, syllables, phrase_type, lem,
            tags.2.2.1, tags.2.1, tags.1, tags.2.2.2,
            spelling_region, morphology⟩))

/-!
The statistics accumulator and the processing drivers.  The `elapsed`
wall-clock field of the source `Stats` is outside the embedding; entry
serialization (`serde_json::to_string`) never fails for these records and
is modelled as always succeeding.
-/

/-- Case pattern of a word, for the reporting counters. -/
inductive CaseForm where
  | Lower
  | Title
  | Upper
  | Mixed
deriving DecidableEq

/-- Rust `char::is_lowercase`, modelled on the ASCII and Latin-1 letters
the case statistics exercise. -/
def isLowercaseM (c : Char) : Bool :=
  let n := c.toNat
  isAsciiLower c || (0xDF ≤ n && n ≤ 0xF6) || (0xF8 ≤ n && n ≤ 0xFF)

/-- Rust `char::is_uppercase`, same modelling scope. -/
def isUppercaseM (c : Char) : Bool :=
  let n := c.toNat
  isAsciiUpper c || (0xC0 ≤ n && n ≤ 0xD6) || (0xD8 ≤ n && n ≤ 0xDE)

/-- Port of `classify_case`. -/
def classify_case (s : Str) : CaseForm :=
  if !s.any isAlphabeticM then CaseForm.Lower
  else
    let alpha := s.filter isAlphabeticM
    if alpha.all isLowercaseM then CaseForm.Lower
    else if alpha.all isUppercaseM then CaseForm.Upper
    else if ((alpha.head?.map isUppercaseM).getD false) &&
        (alpha.drop 1).all isLowercaseM then CaseForm.Title
    else CaseForm.Mixed

/-- The mutable statistics record (`elapsed` omitted). -/
structure Stats where
  pages_processed : Nat := 0
  words_written : Nat := 0
  senses_written : Nat := 0
  special : Nat := 0
  redirects : Nat := 0
  dict_only : Nat := 0
  non_english : Nat := 0
  non_latin : Nat := 0
  skipped : Nat := 0
  case_lower : Nat := 0
  case_title : Nat := 0
  case_upper : Nat := 0
  case_mixed : Nat := 0
deriving DecidableEq

/-- Bump the case counter for a title. -/
def bumpCase (st : Stats) (c : CaseForm) : Stats :=
  match c with
  | CaseForm.Lower => { st with case_lower := st.case_lower + 1 }
  | CaseForm.Title => { st with case_title := st.case_title + 1 }
  | CaseForm.Upper => { st with case_upper := st.case_upper + 1 }
  | CaseForm.Mixed => { st with case_mixed := st.case_mixed + 1 }

/-- Outcome of the eight-step filter chain of `run_sequential` over one
raw page fragment (`wiktionary-scanner-rust/src/main.rs`, lines
1582-1636). -/
inductive PageOutcome where
  | noTitle
  | badNs
  | reserved
  | redirect
  | noText
  | nonEnglish
  | dictOnly
  | nonLatin
  | accepted (title text : Str)
deriving DecidableEq

/-- The filter chain of the Sequential strategy, transliterated from the
`run_sequential` callback: title extraction, namespace, reserved prefixes,
redirect marker, body extraction, target-language section,
dictionary-exclusion marker, script predicate. -/
def classifyPage (cfg : ScanConfig) (page_xml : Str) : PageOutcome :=
  match regexCapture TITLE_PATTERN false page_xml 1 with
  | none => PageOutcome.noTitle
  | some title =>
    if (match regexCapture NS_PATTERN false page_xml 1 with
        | some ns => ns != ("0".toList)
        | none => false) then PageOutcome.badNs
    else if cfg.specialPages.any (fun p => startsWithLit title p) then
      PageOutcome.reserved
    else if regexIsMatch REDIRECT_PATTERN false page_xml then
      PageOutcome.redirect
    else
      match regexCapture TEXT_PATTERN false page_xml 1 with
      | none => PageOutcome.noText
      | some text =>
        if !regexIsMatch ENGLISH_SECTION false text then PageOutcome.nonEnglish
        else if regexIsMatch DICT_ONLY false text then PageOutcome.dictOnly
        else if !is_englishlike title then PageOutcome.nonLatin
        else PageOutcome.accepted title text

/-- The distinct rejection counters. -/
inductive Counter where
  | skipped
  | special
  | redirects
  | nonEnglish
  | dictOnly
  | nonLatin
deriving DecidableEq

/-- The counter each rejection outcome increments in `run_sequential`. -/
def counterOf : PageOutcome → Option Counter
  | PageOutcome.noTitle => some Counter.skipped
  | PageOutcome.badNs => some Counter.special
  | PageOutcome.reserved => some Counter.special
  | PageOutcome.redirect => some Counter.redirects
  | PageOutcome.noText => some Counter.skipped
  | PageOutcome.nonEnglish => some Counter.nonEnglish
  | PageOutcome.dictOnly => some Counter.dictOnly
  | PageOutcome.nonLatin => some Counter.nonLatin
  | PageOutcome.accepted _ _ => none

/-- Apply a counter increment to the statistics. -/
def bumpCounter (st : Stats) : Counter → Stats
  | Counter.skipped => { st with skipped := st.skipped + 1 }
  | Counter.special => { st with special := st.special + 1 }
  | Counter.redirects => { st with redirects := st.redirects + 1 }
  | Counter.nonEnglish => { st with non_english := st.non_english + 1 }
  | Counter.dictOnly => { st with dict_only := st.dict_only + 1 }
  | Counter.nonLatin => { st with non_latin := st.non_latin + 1 }

/-- The entry-writing loop of the `run_sequential` callback: write each
entry, bump `senses_written`, and stop (returning the limit-reached flag)
as soon as the counter reaches the limit. -/
def writeEntriesAux (limit : Option Nat) : List Entry → Nat → List Entry × Nat × Bool
  | [], senses => ([], senses, false)
  | e :: rest, senses =>
    let senses1 := senses + 1
    let stop :=
      match limit with
      | some l => decide (senses1 ≥ l)
      | none => false
    if stop then ([e], senses1, true)
    else
      let r := writeEntriesAux limit rest senses1
      (e :: r.1, r.2.1, r.2.2)

/-- One invocation of the `run_sequential` page callback: count the page,
run the filter chain, and on acceptance parse and write the senses.  The
returned flag is true when the callback returns `false` (limit reached). -/
def seqPage (cfg : ScanConfig) (limit : Option Nat) (st : Stats) (page : Str) :
    Stats × List Entry × Bool :=
  let st := { st with pages_processed := st.pages_processed + 1 }
  match classifyPage cfg page with
  | PageOutcome.accepted title text =>
    let entries := parse_page cfg title text
    if entries.isEmpty then ({ st with skipped := st.skipped + 1 }, [], false)
    else
      let st := { st with words_written := st.words_written + 1 }
      let st := bumpCase st (classify_case title)
      let w := writeEntriesAux limit entries st.senses_written
      ({ st with senses_written := w.2.1 }, w.1, w.2.2)
  | outc =>
    (match counterOf outc with
     | some c => bumpCounter st c
     | none => st, [], false)

/-- Result of a Sequential run over a pre-split page stream. -/
structure SeqResult where
  stats : Stats
  output : List Entry
  halted : Bool
  unread : List Str
deriving DecidableEq

/-- The `scan_pages` callback loop of `run_sequential`: pages are handed
to the callback in order until it returns `false`; the pages never handed
over are returned as `unread`.  (The byte-stream splitter that produces
the fragments is modelled by the fragment list itself.) -/
def runSeqAux (cfg : ScanConfig) (limit : Option Nat) :
    List Str → Stats → SeqResult
  | [], st => ⟨st, [], false, []⟩
  | page :: rest, st =>
    let r := seqPage cfg limit st page
    if r.2.2 then ⟨r.1, r.2.1, true, rest⟩
    else
      let rr := runSeqAux cfg limit rest r.1
      ⟨rr.stats, r.2.1 ++ rr.output, rr.halted, rr.unread⟩

/-- Port of `run_sequential` over a pre-split page stream. -/
def run_sequential (cfg : ScanConfig) (pages : List Str) (limit : Option Nat) :
    SeqResult :=
  runSeqAux cfg limit pages {}

/-!
The channel-pipeline page functions (`wiktionary-scanner-rust/src/parallel.rs`).
-/

/-- A split page fragment with its sequence number. -/
structure RawPage where
  title : Str
  text : Str
  page_id : Nat
deriving DecidableEq

/-- Result of processing one raw page. -/
structure ProcessedPage where
  entries : List Entry
  title : Str
  page_id : Nat
  was_english : Bool
  was_redirect : Bool
  was_special : Bool
  was_non_latin : Bool
  was_dict_only : Bool
deriving DecidableEq

/-- Port of `extract_pages_from_xml`: title, namespace, reserved-prefix
and body-extraction checks, any failure dropping the page with no
`RawPage` (and hence no counter).  The reserved-prefix list is the
injected configuration. -/
def extract_pages_from_xml (cfg : ScanConfig) (page_xml : Str) (page_id : Nat) :
    Option RawPage :=
  match regexCapture TITLE_PATTERN false page_xml 1 with
  | none => none
  | some title =>
    if (match regexCapture NS_PATTERN false page_xml 1 with
        | some ns => ns != ("0".toList)
        | none => false) then none
    else if cfg.specialPages.any (fun p => startsWithLit title p) then none
    else
      match regexCapture TEXT_PATTERN false page_xml 1 with
      | none => none
      | some text => some ⟨title, text, page_id⟩

/-- Port of `process_raw_page`: redirect, target-language,
dictionary-exclusion and script checks on the extracted body, then full
parsing. -/
def process_raw_page (cfg : ScanConfig) (raw : RawPage) : ProcessedPage :=
  if regexIsMatch REDIRECT_PATTERN false raw.text then
    ⟨[], raw.title, raw.page_id, false, true, false, false, false⟩
  else if !regexIsMatch ENGLISH_SECTION false raw.text then
    ⟨[], raw.title, raw.page_id, false, false, false, false, false⟩
  else if regexIsMatch DICT_ONLY false raw.text then
    ⟨[], raw.title, raw.page_id, true, false, false, false, true⟩
  else if !is_englishlike raw.title then
    ⟨[], raw.title, raw.page_id, true, false, false, true, false⟩
  else
    ⟨parse_page cfg raw.title raw.text, raw.title, raw.page_id,
      true, false, false, false, false⟩

/-- Port of `update_stats_from_result`. -/
def update_stats_from_result (st : Stats) (result : ProcessedPage) : Stats :=
  if result.was_redirect then { st with redirects := st.redirects + 1 }
  else if result.was_special then { st with special := st.special + 1 }
  else if !result.was_english then { st with non_english := st.non_english + 1 }
  else if result.was_dict_only then { st with dict_only := st.dict_only + 1 }
  else if result.was_non_latin then { st with non_latin := st.non_latin + 1 }
  else if result.entries.isEmpty then { st with skipped := st.skipped + 1 }
  else
    bumpCase { st with words_written := st.words_written + 1 }
      (classify_case result.title)

/-- The counter `update_stats_from_result` increments for one pipeline
result (`none` when the page is kept and `words_written` is bumped
instead). -/
def pipelineCounterOf (r : ProcessedPage) : Option Counter :=
  if r.was_redirect then some Counter.redirects
  else if r.was_special then some Counter.special
  else if !r.was_english then some Counter.nonEnglish
  else if r.was_dict_only then some Counter.dictOnly
  else if r.was_non_latin then some Counter.nonLatin
  else if r.entries.isEmpty then some Counter.skipped
  else none

/-- The counter the channel pipeline ends up incrementing for one raw
page fragment: `none` when `extract_pages_from_xml` drops the fragment
before any worker sees it (no `ProcessedPage` is ever produced, so
`update_stats_from_result` never runs). -/
def pipelinePageCounter (cfg : ScanConfig) (page_xml : Str) : Option Counter :=
  match extract_pages_from_xml cfg page_xml 0 with
  | none => none
  | some raw => pipelineCounterOf (process_raw_page cfg raw)

/-!
The reorder buffer of the channel-pipeline consumer
(`write_results_sorted`, `wiktionary-scanner-rust/src/parallel.rs`,
lines 469-550).  Results are modelled by their `page_id`; the entry
serialization, statistics and the output-record limit (`limit = None`
throughout the ordering claims) are orthogonal to the ordering behaviour
and omitted; the `BTreeMap` is a sorted list of pending ids.
-/

/-- Sorted insertion into the pending buffer (`BTreeMap::insert`). -/
def insortNat (x : Nat) : List Nat → List Nat
  | [] => [x]
  | y :: ys => if x ≤ y then x :: y :: ys else y :: insortNat x ys

/-- The drain loop after an in-order write: repeatedly remove and write
`next_expected` from the buffer while present. -/
def drainLoop (pending : List Nat) (next : Nat) (out : List Nat) :
    List Nat × Nat × List Nat :=
  if _h : next ∈ pending then
    drainLoop (pending.erase next) (next + 1) (out ++ [next])
  else (pending, next, out)
termination_by pending.length
decreasing_by
  have h1 := List.length_erase_of_mem _h
  have h2 : 0 < pending.length := List.length_pos.mpr (List.ne_nil_of_mem _h)
  omega

/-- The consumer loop of `write_results_sorted`: a result equal to
`next_expected` is written immediately and the buffer drained; any other
result is buffered. -/
def consumeLoop : List Nat → List Nat → Nat → List Nat → List Nat × Nat × List Nat
  | [], pending, next, out => (pending, next, out)
  | r :: rs, pending, next, out =>
    if r = next then
      let s := drainLoop pending (next + 1) (out ++ [r])
      consumeLoop rs s.1 s.2.1 s.2.2
    else consumeLoop rs (insortNat r pending) next out

/-- Port of `write_results_sorted` (no output limit): process the arrival
stream, then drain whatever is still buffered in ascending id order. -/
def write_results_sorted (arrivals : List Nat) : List Nat :=
  let s := consumeLoop arrivals [] 0 []
  s.2.2 ++ s.1

/-!
Spec-side rendering of the page filter chain, and concrete example
configurations and page fragments used by witnesses and counterexamples.
-/

/-- The specification's eight-step short-circuit predicate chain, written
from the spec's words: the checks run in the stated order —
title-extraction, namespace, reserved-prefix, redirect, body-extraction,
target-language-section, dictionary-exclusion, script check — and the
first failing check names the counter it increments (`skipped`, `special`,
`special`, `redirects`, `skipped`, `non_english`, `dict_only`,
`non_latin` respectively); `none` means every check passed. -/
def specFilterChain (cfg : ScanConfig) (page_xml : Str) : Option Counter :=
  match regexCapture TITLE_PATTERN false page_xml 1 with
  | none => some Counter.skipped
  | some title =>
    if (match regexCapture NS_PATTERN false page_xml 1 with
        | some ns => ns != ("0".toList)
        | none => false) then some Counter.special
    else if cfg.specialPages.any (fun p => startsWithLit title p) then
      some Counter.special
    else if regexIsMatch REDIRECT_PATTERN false page_xml then
      some Counter.redirects
    else
      match regexCapture TEXT_PATTERN false page_xml 1 with
      | none => some Counter.skipped
      | some text =>
        if !regexIsMatch ENGLISH_SECTION false text then
          some Counter.nonEnglish
        else if regexIsMatch DICT_ONLY false text then some Counter.dictOnly
        else if !is_englishlike title then some Counter.nonLatin
        else none

/-- A small concrete scanner configuration for concrete evaluations. -/
def cfg0 : ScanConfig :=
  ⟨[(("noun".toList), ("noun".toList)), (("verb".toList), ("verb".toList))],
   [("informal".toList)], [("archaic".toList)], [("computing".toList)],
   [(("british".toList), ("en-GB".toList))],
   [(("american spelling".toList), ("en-US".toList))],
   [("Wiktionary:".toList)]⟩

/-- A well-formed main-namespace page with two senses. -/
def page0 : Str :=
  ((String.toList
    "<page><title>cat</title><text>==English==\n===Noun===\n# an animal\n# a pet</text></page>"))

/-- A page in namespace 14 (a category page). -/
def pageNs : Str :=
  ((String.toList
    "<page><title>Foo</title><ns>14</ns><text>==English==\nx</text></page>"))

/-- A main-namespace page carrying a redirect marker. -/
def pageRedir : Str :=
  ((String.toList
    "<page><title>Dog</title><redirect title=\"dog\"/><text>x</text></page>"))

/-- A page carrying a redirect marker but no title element. -/
def pageRedirNoTitle : Str :=
  ((String.toList
    "<page><redirect title=\"dog\"/><text>x</text></page>"))

/-- The number of sense records a page fragment would emit when accepted
by the Sequential filter chain (zero for rejected fragments and for
accepted pages that parse to no entries). -/
def pageSenses (cfg : ScanConfig) (page : Str) : Nat :=
  match classifyPage cfg page with
  | PageOutcome.accepted title text => (parse_page cfg title text).length
  | _ => 0

/-- Total number of emittable sense records in a page stream. -/
def totalSenses (cfg : ScanConfig) : List Str → Nat
  | [] => 0
  | p :: rest => pageSenses cfg p + totalSenses cfg rest

/-!
Reorder-buffer lemmas.
-/

theorem insortNat_perm (x : Nat) (l : List Nat) :
    List.Perm (insortNat x l) (x :: l) := by
  induction l with
  | nil => simp [insortNat]
  | cons y ys ih =>
    simp only [insortNat]
    split
    · exact List.Perm.refl _
    · exact (ih.cons y).trans (List.Perm.swap x y ys)

theorem mem_insortNat {y x : Nat} {l : List Nat} :
    y ∈ insortNat x l ↔ y = x ∨ y ∈ l := by
  rw [(insortNat_perm x l).mem_iff]
  simp

theorem insortNat_sorted {x : Nat} {l : List Nat}
    (hs : List.Sorted (· < ·) l) (hx : x ∉ l) :
    List.Sorted (· < ·) (insortNat x l) := by
  induction l with
  | nil => simp [insortNat]
  | cons y ys ih =>
    simp only [insortNat]
    rw [List.sorted_cons] at hs
    have hxy : x ≠ y := by
      intro he
      exact hx (by simp [he])
    split
    · rename_i hle
      rw [List.sorted_cons]
      refine ⟨?_, List.sorted_cons.mpr hs⟩
      intro b hb
      rcases List.mem_cons.mp hb with hb | hb
      · subst hb; omega
      · have := hs.1 b hb; omega
    · rename_i hgt
      rw [List.sorted_cons]
      refine ⟨?_, ih hs.2 (fun hm => hx (List.mem_cons_of_mem _ hm))⟩
      intro b hb
      rcases mem_insortNat.mp hb with hb | hb
      · subst hb; omega
      · exact hs.1 b hb

theorem perm_shunt (out pending rs : List Nat) (r : Nat) :
    List.Perm (((out ++ [r]) ++ pending) ++ rs) ((out ++ pending) ++ (r :: rs)) := by
  rw [List.perm_iff_count]
  intro a
  by_cases h : a = r <;>
    simp [h, List.count_append, List.count_cons]
  omega

theorem perm_shunt2 (out pending rs : List Nat) (r : Nat) :
    List.Perm ((out ++ (r :: pending)) ++ rs) ((out ++ pending) ++ (r :: rs)) := by
  rw [List.perm_iff_count]
  intro a
  by_cases h : a = r <;>
    simp [h, List.count_append, List.count_cons]
  omega

theorem drainLoop_spec (pending : List Nat) (next : Nat) (out : List Nat)
    (hs : List.Sorted (· < ·) pending) (hge : ∀ p ∈ pending, next ≤ p)
    (hout : out = List.range next) :
    List.Sorted (· < ·) (drainLoop pending next out).1 ∧
      (∀ p ∈ (drainLoop pending next out).1,
        (drainLoop pending next out).2.1 < p) ∧
      (drainLoop pending next out).2.2 =
        List.range (drainLoop pending next out).2.1 ∧
      List.Perm ((drainLoop pending next out).2.2 ++ (drainLoop pending next out).1)
        (out ++ pending) := by
  induction pending, next, out using drainLoop.induct with
  | case1 pending next out hmem ih =>
    rw [drainLoop, dif_pos hmem]
    have hnodup : pending.Nodup := hs.nodup
    have hs2 : List.Sorted (· < ·) (pending.erase next) :=
      hs.sublist (List.erase_sublist next pending)
    have hge2 : ∀ p ∈ pending.erase next, next + 1 ≤ p := by
      intro p hp
      have hpp := hnodup.mem_erase_iff.mp hp
      have := hge p hpp.2
      omega
    have hout2 : out ++ [next] = List.range (next + 1) := by
      rw [hout, List.range_succ]
    obtain ⟨a, b, c, d⟩ := ih hs2 hge2 hout2
    refine ⟨a, b, c, d.trans ?_⟩
    have h1 : List.Perm ([next] ++ pending.erase next) pending :=
      (List.perm_cons_erase hmem).symm
    have h2 : List.Perm (out ++ ([next] ++ pending.erase next)) (out ++ pending) :=
      List.Perm.append_left out h1
    rw [← List.append_assoc] at h2
    exact h2
  | case2 pending next out hmem =>
    rw [drainLoop, dif_neg hmem]
    refine ⟨hs, ?_, hout, List.Perm.refl _⟩
    intro p hp
    have := hge p hp
    rcases Nat.eq_or_lt_of_le this with h | h
    · exact absurd (h ▸ hp) hmem
    · exact h

theorem consumeLoop_spec (rs : List Nat) (pending : List Nat) (next : Nat)
    (out : List Nat)
    (hs : List.Sorted (· < ·) pending) (hgt : ∀ p ∈ pending, next < p)
    (hout : out = List.range next)
    (hnodup : (out ++ pending ++ rs).Nodup) :
    List.Sorted (· < ·) (consumeLoop rs pending next out).1 ∧
      (∀ p ∈ (consumeLoop rs pending next out).1,
        (consumeLoop rs pending next out).2.1 < p) ∧
      (consumeLoop rs pending next out).2.2 =
        List.range (consumeLoop rs pending next out).2.1 ∧
      List.Perm
        ((consumeLoop rs pending next out).2.2 ++ (consumeLoop rs pending next out).1)
        (out ++ pending ++ rs) := by
  induction rs generalizing pending next out with
  | nil =>
    simp only [consumeLoop]
    exact ⟨hs, hgt, hout, by simp⟩
  | cons r rs ih =>
    simp only [consumeLoop]
    by_cases hr : r = next
    · rw [if_pos hr]
      subst hr
      have hge : ∀ p ∈ pending, r + 1 ≤ p := fun p hp => hgt p hp
      have hout2 : out ++ [r] = List.range (r + 1) := by
        rw [hout, List.range_succ]
      obtain ⟨a, b, c, d⟩ := drainLoop_spec pending (r + 1) (out ++ [r]) hs hge hout2
      have hperm1 : List.Perm
          ((drainLoop pending (r + 1) (out ++ [r])).2.2 ++
            (drainLoop pending (r + 1) (out ++ [r])).1 ++ rs)
          (out ++ pending ++ (r :: rs)) :=
        (List.Perm.append_right rs d).trans (perm_shunt out pending rs r)
      obtain ⟨a2, b2, c2, d2⟩ := ih _ _ _ a b c (hperm1.nodup_iff.mpr hnodup)
      exact ⟨a2, b2, c2, d2.trans hperm1⟩
    · rw [if_neg hr]
      have hdisj := (List.nodup_append.mp hnodup).2.2
      have hrboth : r ∉ out ++ pending := fun hm => hdisj hm (by simp)
      have hrout : r ∉ out := fun hm => hrboth (List.mem_append_left _ hm)
      have hrpend : r ∉ pending := fun hm => hrboth (List.mem_append_right _ hm)
      have hrgt : next < r := by
        have : r ∉ List.range next := hout ▸ hrout
        simp at this
        omega
      have hs2 : List.Sorted (· < ·) (insortNat r pending) :=
        insortNat_sorted hs hrpend
      have hgt2 : ∀ p ∈ insortNat r pending, next < p := by
        intro p hp
        rcases mem_insortNat.mp hp with hp | hp
        · omega
        · exact hgt p hp
      have hperm2 : List.Perm (out ++ insortNat r pending ++ rs)
          (out ++ pending ++ (r :: rs)) := by
        have h1 : List.Perm (out ++ insortNat r pending) (out ++ (r :: pending)) :=
          List.Perm.append_left out (insortNat_perm r pending)
        exact (List.Perm.append_right rs h1).trans (perm_shunt2 out pending rs r)
      obtain ⟨a2, b2, c2, d2⟩ := ih _ _ _ hs2 hgt2 hout
        (hperm2.nodup_iff.mpr hnodup)
      exact ⟨a2, b2, c2, d2.trans hperm2⟩

theorem write_results_sorted_spec (l : List Nat) (h : l.Nodup) :
    List.Sorted (· < ·) (write_results_sorted l) ∧
      List.Perm (write_results_sorted l) l := by
  obtain ⟨a, b, c, d⟩ := consumeLoop_spec l [] 0 [] (by simp) (by simp)
    (by simp) (by simpa using h)
  constructor
  · show List.Sorted (· < ·)
      ((consumeLoop l [] 0 []).2.2 ++ (consumeLoop l [] 0 []).1)
    refine List.pairwise_append.mpr ⟨?_, a, ?_⟩
    · exact c ▸ List.sorted_lt_range _
    · intro x hx y hy
      have hxlt : x < (consumeLoop l [] 0 []).2.1 := List.mem_range.mp (c ▸ hx)
      exact Nat.lt_trans hxlt (b y hy)
  · show List.Perm ((consumeLoop l [] 0 []).2.2 ++ (consumeLoop l [] 0 []).1) l
    simpa using d

/-- C1: for the channel-pipeline strategy, whatever order the processed
results reach the consumer (any permutation of the input sequence ids),
`write_results_sorted` writes the pages in strictly increasing page-id
order equal to the input sequence order — each result is written exactly
once, in-turn results immediately and early results after buffering. -/
theorem c1_reorder_buffer_restores_input_order (n : Nat) (l : List Nat)
    (h : List.Perm l (List.range n)) :
    write_results_sorted l = List.range n := by
  have hnd : l.Nodup := h.nodup_iff.mpr (List.nodup_range n)
  obtain ⟨hsorted, hperm⟩ := write_results_sorted_spec l hnd
  haveI : IsAntisymm Nat (· < ·) :=
    ⟨fun a b h1 h2 => absurd h1 (Nat.lt_asymm h2)⟩
  exact List.eq_of_perm_of_sorted (hperm.trans h) hsorted (List.sorted_lt_range n)

/-- Witness for C1 at the completion order 2, 0, 1 of three pages. -/
theorem c1_reorder_buffer_restores_input_order_witness :
    write_results_sorted [2, 0, 1] = List.range 3 :=
  c1_reorder_buffer_restores_input_order 3 [2, 0, 1] (by decide)

/-- C10: when some page ids are never delivered (pages dropped before
processing), the consumer still writes every received result exactly once
(the output is a permutation of the received ids), and the output —
including the final drain of the buffer after the channel closes — is in
strictly ascending page-id order. -/
theorem c10_reorder_buffer_tolerates_missing_ids (l : List Nat)
    (h : l.Nodup) :
    List.Perm (write_results_sorted l) l ∧
      List.Sorted (· < ·) (write_results_sorted l) := by
  obtain ⟨hsorted, hperm⟩ := write_results_sorted_spec l h
  exact ⟨hperm, hsorted⟩

/-- Witness for C10 at the arrival stream 4, 1 with ids 0, 2, 3 missing. -/
theorem c10_reorder_buffer_tolerates_missing_ids_witness :
    List.Perm (write_results_sorted [4, 1]) [4, 1] ∧
      List.Sorted (· < ·) (write_results_sorted [4, 1]) :=
  c10_reorder_buffer_tolerates_missing_ids [4, 1] (by decide)

/-!
Script-predicate lemmas (C3).
-/

/-- The rejection characters of claim C3: a forbidden character, a
combining diacritical mark, or a code point above the Basic Multilingual
Plane. -/
def badTitleChar (c : Char) : Bool :=
  forbiddenChar c || (0x300 ≤ c.toNat && c.toNat ≤ 0x36F) ||
    (0xFFFF < c.toNat)

theorem badTitleChar_vals {c : Char} (h : badTitleChar c = true) :
    c.toNat = 38 ∨ c.toNat = 59 ∨ c.toNat = 60 ∨ c.toNat = 62 ∨
      (0x300 ≤ c.toNat ∧ c.toNat ≤ 0x36F) ∨ 0xFFFF < c.toNat := by
  simp only [badTitleChar, forbiddenChar, Bool.or_eq_true, beq_iff_eq,
    Bool.and_eq_true, decide_eq_true_eq] at h
  rcases h with ((((h | h) | h) | h) | h) | h <;>
    first | (subst h; decide) | omega

theorem allowedPunct_vals {c : Char} (h : allowedPunct c = true) :
    c.toNat = 0x2019 ∨ c.toNat = 0x27 ∨ c.toNat = 0x2018 ∨ c.toNat = 45 ∨
      c.toNat = 0x2013 ∨ c.toNat = 46 ∨ c.toNat = 47 := by
  simp only [allowedPunct, Bool.or_eq_true, beq_iff_eq] at h
  rcases h with (((((h | h) | h) | h) | h) | h) | h <;>
    subst h <;> decide

theorem englishWalk_false_of_bad {c : Char} (hbad : badTitleChar c = true) :
    ∀ (l : Str) (saw : Bool), c ∈ l → englishWalk l saw = false := by
  intro l
  induction l with
  | nil => intro saw hc; cases hc
  | cons x rest ih =>
    intro saw hc
    rcases List.mem_cons.mp hc with rfl | hmem
    · simp only [badTitleChar, forbiddenChar, Bool.or_eq_true, beq_iff_eq,
        Bool.and_eq_true, decide_eq_true_eq] at hbad
      rcases hbad with ((((rfl | rfl) | rfl) | rfl) | hr) | hr
      · rw [englishWalk, if_neg (by decide), if_pos (by decide)]
      · rw [englishWalk, if_neg (by decide), if_pos (by decide)]
      · rw [englishWalk, if_neg (by decide), if_pos (by decide)]
      · rw [englishWalk, if_neg (by decide), if_pos (by decide)]
      all_goals rw [englishWalk]
      all_goals split_ifs with h1 h2 h3 h4 h5 h6 h7 h8 <;> try rfl
      all_goals first
        | (have e := eq_of_beq h1
           subst e
           exact absurd hr (by decide))
        | omega
        | (simp only [Bool.and_eq_true, decide_eq_true_eq] at h5
           omega)
        | (rcases allowedPunct_vals h6 with h | h | h | h | h | h | h <;> omega)
        | (simp only [Bool.and_eq_true, Bool.or_eq_true,
             decide_eq_true_eq] at h7 h8
           omega)
    · rw [englishWalk]
      split_ifs <;> first | rfl | exact ih _ hmem

theorem englishWalk_noAlpha (l : Str)
    (h : ∀ c ∈ l, isAlphabeticM c = false) :
    englishWalk l false = false := by
  induction l with
  | nil => rfl
  | cons x rest ih =>
    have hx := h x (List.mem_cons_self x rest)
    have hrest : ∀ c ∈ rest, isAlphabeticM c = false :=
      fun c hc => h c (List.mem_cons_of_mem x hc)
    rw [englishWalk]
    split_ifs with h1 h2 h3 h4 h5 h6 h7 h8 <;> try rfl
    · exact ih hrest
    · rw [hx]
      exact ih hrest
    · exact absurd h4 (by simp [hx])
    · exact ih hrest
    · exact ih hrest

theorem englishWalk_true (l : Str) :
    ∀ saw : Bool, englishWalk l saw = true →
      saw = true ∨ ∃ c ∈ l, isAlphabeticM c = true ∧
        (c.toNat < 128 ∨ (0xC0 ≤ c.toNat ∧ c.toNat ≤ 0x24F)) := by
  induction l with
  | nil =>
    intro saw h
    exact Or.inl h
  | cons x rest ih =>
    intro saw h
    rw [englishWalk] at h
    split_ifs at h with h1 h2 h3 h4 h5 h6 h7 h8
    · rcases ih saw h with hs | ⟨c, hc, hp⟩
      · exact Or.inl hs
      · exact Or.inr ⟨c, List.mem_cons_of_mem x hc, hp⟩
    · rcases ih _ h with hs | ⟨c, hc, hp⟩
      · rcases (by simpa using hs : saw = true ∨ isAlphabeticM x = true) with
          hs2 | ha
        · exact Or.inl hs2
        · exact Or.inr ⟨x, List.mem_cons_self x rest, ha, Or.inl h3⟩
      · exact Or.inr ⟨c, List.mem_cons_of_mem x hc, hp⟩
    · rcases ih true h with _ | ⟨c, hc, hp⟩
      · refine Or.inr ⟨x, List.mem_cons_self x rest, h4, Or.inr ?_⟩
        simpa using h5
      · exact Or.inr ⟨c, List.mem_cons_of_mem x hc, hp⟩
    · rcases ih saw h with hs | ⟨c, hc, hp⟩
      · exact Or.inl hs
      · exact Or.inr ⟨c, List.mem_cons_of_mem x hc, hp⟩
    · rcases ih saw h with hs | ⟨c, hc, hp⟩
      · exact Or.inl hs
      · exact Or.inr ⟨c, List.mem_cons_of_mem x hc, hp⟩

/-- C3 (amended to the scanner tool, `wiktionary-scanner-rust`; the legacy
tool's predicate, refuted by `c3_counterexample`, lacks the combining-mark
and astral rejections): the scanner's `is_englishlike` returns `false`
whenever the token contains one of the forbidden characters `&`, `;`, `<`,
`>`, a combining diacritical mark U+0300–U+036F, or a code point above the
Basic Multilingual Plane, and whenever it contains no alphabetic character
at all; it returns `true` only when some Latin letter (ASCII, or alphabetic
in U+00C0–U+024F) was seen. -/
theorem c3_script_predicate_rejections (l : Str) :
    ((∃ c ∈ l, badTitleChar c = true) → is_englishlike l = false) ∧
      ((∀ c ∈ l, isAlphabeticM c = false) → is_englishlike l = false) ∧
      (is_englishlike l = true →
        ∃ c ∈ l, isAlphabeticM c = true ∧
          (c.toNat < 128 ∨ (0xC0 ≤ c.toNat ∧ c.toNat ≤ 0x24F))) := by
  refine ⟨?_, ?_, ?_⟩
  · rintro ⟨c, hc, hbad⟩
    unfold is_englishlike
    split_ifs with h1 h2
    · rfl
    · rfl
    · exact englishWalk_false_of_bad hbad l false hc
  · intro h
    unfold is_englishlike
    split_ifs with h1 h2
    · rfl
    · rfl
    · exact englishWalk_noAlpha l h
  · intro h
    unfold is_englishlike at h
    split_ifs at h with h1 h2
    rcases englishWalk_true l false h with hs | he
    · exact absurd hs (by simp)
    · exact he

/-- Witness for C3 applying the theorem at concrete tokens: a forbidden
character, a digits-only token, and the Latin-letter consequence on a
clean token. -/
theorem c3_script_predicate_rejections_witness :
    is_englishlike (['a', '&']) = false ∧
      is_englishlike (['1', '2']) = false ∧
      (∃ c ∈ ("cat".toList), isAlphabeticM c = true ∧
        (c.toNat < 128 ∨ (0xC0 ≤ c.toNat ∧ c.toNat ≤ 0x24F))) :=
  ⟨(c3_script_predicate_rejections ['a', '&']).1
      ⟨'&', by decide, by decide⟩,
    (c3_script_predicate_rejections ['1', '2']).2.1 (by decide),
    (c3_script_predicate_rejections ("cat".toList)).2.2 (by decide)⟩

/-- Counterexample for C3 as frozen: the claim also covers the legacy
tool's `is_englishlike` (`wiktionary-rust/src/main.rs`, lines 314-361),
which returns `true` for a token containing the combining grave accent
U+0300 and for one containing an astral emoji code point, both of which
the claim requires to be rejected. -/
theorem c3_counterexample :
    legacy_is_englishlike (['x', Char.ofNat 0x300]) = true ∧
      (0x300 ≤ (Char.ofNat 0x300).toNat ∧ (Char.ofNat 0x300).toNat ≤ 0x36F) ∧
      legacy_is_englishlike (['a', Char.ofNat 0x1F389]) = true ∧
      0xFFFF < (Char.ofNat 0x1F389).toNat := by
  decide

/-!
Morphology-classifier lemmas (C5, C6).
-/

theorem classifyParts_go (components : List Str)
    (a b c d : List Str) :
    components.foldl
      (fun acc c =>
        match startsDash c, endsDash c with
        | false, true => (acc.1 ++ [c], acc.2.1, acc.2.2.1, acc.2.2.2)
        | true, false => (acc.1, acc.2.1 ++ [c], acc.2.2.1, acc.2.2.2)
        | true, true => (acc.1, acc.2.1, acc.2.2.1 ++ [c], acc.2.2.2)
        | false, false => (acc.1, acc.2.1, acc.2.2.1, acc.2.2.2 ++ [c]))
      (a, b, c, d) =
      (a ++ components.filter (fun c => !startsDash c && endsDash c),
       b ++ components.filter (fun c => startsDash c && !endsDash c),
       c ++ components.filter (fun c => startsDash c && endsDash c),
       d ++ components.filter (fun c => !startsDash c && !endsDash c)) := by
  induction components generalizing a b c d with
  | nil => simp
  | cons x xs ih =>
    rcases hs : startsDash x <;> rcases he : endsDash x <;>
      simp [List.foldl_cons, hs, he, List.filter_cons, ih]

theorem classifyParts_eq (components : List Str) :
    classifyParts components =
      (components.filter (fun c => !startsDash c && endsDash c),
       components.filter (fun c => startsDash c && !endsDash c),
       components.filter (fun c => startsDash c && endsDash c),
       components.filter (fun c => !startsDash c && !endsDash c)) := by
  have h := classifyParts_go components [] [] [] []
  simpa [classifyParts] using h

theorem classify_morphology_spec (components : List Str) (tmpl : Str) :
    (classify_morphology components tmpl).components = components ∧
      (classify_morphology components tmpl).prefixes =
        components.filter (fun c => !startsDash c && endsDash c) ∧
      (classify_morphology components tmpl).suffixes =
        components.filter (fun c => startsDash c && !endsDash c) ∧
      ((classify_morphology components tmpl).is_compound = true ↔
        (classify_morphology components tmpl).morph_type = ("compound".toList)) ∧
      ((classify_morphology components tmpl).is_compound = false →
        (classify_morphology components tmpl).base =
          (components.filter (fun c => !startsDash c && !endsDash c)).head?) ∧
      ((classify_morphology components tmpl).is_compound = true →
        (classify_morphology components tmpl).base = none) := by
  simp only [classify_morphology, classifyParts_eq]
  split_ifs with h1 h2 h3 h4 <;> simp_all

/-- C5 (amended: the invariant holds for every `Morphology` built by the
joiner-mark classifier `classify_morphology`, and the `is_compound`-kind
equivalence holds for every scanner extraction result; the confix path of
`extract_morphology`, refuted by `c5_counterexample`, copies the template
slots into `prefixes`/`suffixes` directly and is exempt from the
prefix/suffix equivalences): a component is listed as a prefix iff it ends
but does not start with the joiner mark, symmetrically for suffixes, and
`is_compound` holds iff the kind is `compound`. -/
theorem c5_morphology_invariant (components : List Str) (tmpl : Str) :
    ((∀ c, c ∈ (classify_morphology components tmpl).prefixes ↔
        c ∈ components ∧ endsDash c = true ∧ startsDash c = false) ∧
      (∀ c, c ∈ (classify_morphology components tmpl).suffixes ↔
        c ∈ components ∧ startsDash c = true ∧ endsDash c = false) ∧
      ((classify_morphology components tmpl).is_compound = true ↔
        (classify_morphology components tmpl).morph_type = ("compound".toList))) ∧
    (∀ (text : Str) (m : Morphology), extract_morphology text = some m →
      (m.is_compound = true ↔ m.morph_type = ("compound".toList))) := by
  obtain ⟨hc, hp, hsf, hic, _, _⟩ := classify_morphology_spec components tmpl
  refine ⟨⟨?_, ?_, hic⟩, ?_⟩
  · intro c
    rw [hp, List.mem_filter]
    simp [and_comm]
  · intro c
    rw [hsf, List.mem_filter]
    simp [and_comm]
  · intro text m hm
    unfold extract_morphology at hm
    rcases hsub : etymologySubsection text with _ | ety
    · rw [hsub] at hm; cases hm
    · rw [hsub] at hm
      dsimp only at hm
      rcases hcomp : extract_morphology_components ety with _ | ct
      · rw [hcomp] at hm; cases hm
      · rw [hcomp] at hm
        dsimp only at hm
        by_cases hcf : containsLit (lowerL ct.2) (("confix".toList)) = true
        · rw [if_pos hcf] at hm
          cases hm
          simp
        · rw [if_neg hcf] at hm
          cases hm
          exact (classify_morphology_spec ct.1 ct.2).2.2.2.1

/-- Witness for C5 applying the theorem: the classifier invariant at the
components of `speed-o-meter`, and the kind equivalence at a concrete
extraction. -/
theorem c5_morphology_invariant_witness :
    (("-o-".toList) ∈
        (classify_morphology
          [("speed".toList), ("-o-".toList), ("meter".toList)]
          ("t".toList)).prefixes ↔
      (("-o-".toList) ∈ [("speed".toList), ("-o-".toList), ("meter".toList)] ∧
        endsDash ("-o-".toList) = true ∧ startsDash ("-o-".toList) = false)) ∧
    ((classify_morphology
        [("speed".toList), ("-o-".toList), ("meter".toList)]
        ("t".toList)).is_compound = true ↔
      (classify_morphology
        [("speed".toList), ("-o-".toList), ("meter".toList)]
        ("t".toList)).morph_type = ("compound".toList)) :=
  ⟨((c5_morphology_invariant
      [("speed".toList), ("-o-".toList), ("meter".toList)]
      ("t".toList)).1.1 ("-o-".toList)),
    ((c5_morphology_invariant
      [("speed".toList), ("-o-".toList), ("meter".toList)]
      ("t".toList)).1.2.2)⟩

/-- Counterexample for C5 as frozen: for the page text
`===Etymology===\n\x7b\x7bconfix|en|a|b-|c\x7d\x7d` the extraction result contains
the component `b-`, which ends and does not start with the joiner mark,
yet the prefixes list is `[a-]` and does not contain it — the claimed
equivalence fails for `Morphology` values built by the confix path. -/
theorem c5_counterexample :
    ((extract_morphology
        ((String.toList "===Etymology===\n\x7b\x7bconfix|en|a|b-|c\x7d\x7d"))).map
      Morphology.components) =
        some [("a-".toList), ("b-".toList), ("-c".toList)] ∧
      ((extract_morphology
        ((String.toList "===Etymology===\n\x7b\x7bconfix|en|a|b-|c\x7d\x7d"))).map
        Morphology.prefixes) = some [("a-".toList)] ∧
      endsDash ("b-".toList) = true ∧ startsDash ("b-".toList) = false ∧
      ("b-".toList) ∉ [("a-".toList)] := by
  decide

/-!
Template-priority lemmas (C6, C2).
-/

/-- First defined value of a signal list — the "first success wins"
consultation of the specification. -/
def firstSome {α : Type} (l : List (Option α)) : Option α :=
  l.findSome? id

theorem firstSome_cons {α : Type} (x : Option α) (xs : List (Option α)) :
    firstSome (x :: xs) = x.orElse (fun _ => firstSome xs) := by
  cases x <;> simp [firstSome, Option.orElse]

/-- C6 (amended: a variable-arity template shape whose match cleans to
fewer than two components does not determine the result — the next shape
is consulted, as `c6_counterexample` forces; and the base of a confix
result is the middle template slot rather than the first joiner-free
component): the template shapes are consulted in the fixed priority order
suffix, prefix, confix, compound, affix, surf with the first successful
shape determining the result; a confix-derived result is always
`circumfixed`; for non-confix results the base is the first component
without a joiner mark when the kind is not `compound`, and compounds have
no base. -/
theorem c6_template_priority :
    (∀ et : Str,
      extract_morphology_components et =
        firstSome [suffixShape et, prefixShape et, confixShape et,
          tryVarTemplate COMPOUND_TEMPLATE et, tryVarTemplate AFFIX_TEMPLATE et,
          tryVarTemplate SURF_TEMPLATE et]) ∧
    (∀ (items : List RItem) (et : Str) (r : Nat × Nat × List (Nat × Str)),
      regexFind items false et = some r →
      (clean_template_components
        (parse_template_params ((getCap r.2.2 1).getD []))).length < 2 →
      tryVarTemplate items et = none) ∧
    (∀ (text : Str) (m : Morphology), extract_morphology text = some m →
      (containsLit (lowerL m.etymology_template) ("confix".toList) = true →
        m.morph_type = ("circumfixed".toList) ∧ m.base = m.components[1]?) ∧
      (containsLit (lowerL m.etymology_template) ("confix".toList) = false →
        (m.is_compound = false →
          m.base =
            (m.components.filter
              (fun c => !startsDash c && !endsDash c)).head?) ∧
        (m.is_compound = true → m.base = none))) := by
  refine ⟨?_, ?_, ?_⟩
  · intro et
    rw [firstSome_cons, firstSome_cons, firstSome_cons, firstSome_cons,
      firstSome_cons, firstSome_cons]
    unfold extract_morphology_components
    cases tryVarTemplate SURF_TEMPLATE et <;>
      simp [firstSome, Option.orElse]
  · intro items et r hfind hlen
    unfold tryVarTemplate
    rw [hfind]
    simp only
    rw [if_neg (by omega)]
  · intro text m hm
    unfold extract_morphology at hm
    rcases hsub : etymologySubsection text with _ | ety
    · rw [hsub] at hm; cases hm
    · rw [hsub] at hm
      dsimp only at hm
      rcases hcomp : extract_morphology_components ety with _ | ct
      · rw [hcomp] at hm; cases hm
      · rw [hcomp] at hm
        dsimp only at hm
        by_cases hcf : containsLit (lowerL ct.2) (("confix".toList)) = true
        · rw [if_pos hcf] at hm
          cases hm
          refine ⟨fun _ => ⟨rfl, rfl⟩, fun hne => ?_⟩
          rw [hne] at hcf
          cases hcf
        · rw [if_neg hcf] at hm
          cases hm
          obtain ⟨hc, _, _, _, hb1, hb2⟩ := classify_morphology_spec ct.1 ct.2
          refine ⟨fun hcf2 => absurd hcf2 ?_, fun _ => ⟨?_, ?_⟩⟩
          · simp only [classify_morphology] at hcf ⊢
            simpa using hcf
          · intro hic
            rw [hc]
            exact hb1 hic
          · intro hic
            exact hb2 hic

/-- Witness for C6: the amended proviso at a compound template cleaning to
one component, and the confix rule at a concrete confix page. -/
theorem c6_template_priority_witness :
    tryVarTemplate COMPOUND_TEMPLATE
        ((String.toList "\x7b\x7bcompound|en|alpha\x7d\x7d")) = none ∧
      (extract_morphology
        ((String.toList "===Etymology===\n\x7b\x7bconfix|en|en|light|ment\x7d\x7d"))).map
          Morphology.morph_type = some ("circumfixed".toList) := by
  have hext : extract_morphology
      ((String.toList "===Etymology===\n\x7b\x7bconfix|en|en|light|ment\x7d\x7d")) =
      some
        ⟨("circumfixed".toList), some ("light".toList),
          [("en-".toList), ("light".toList), ("-ment".toList)],
          [("en-".toList)], [("-ment".toList)], [], false,
          (String.toList "\x7b\x7bconfix|en|en|light|ment\x7d\x7d")⟩ := by
    decide
  refine ⟨?_, ?_⟩
  · exact c6_template_priority.2.1 COMPOUND_TEMPLATE
      ((String.toList "\x7b\x7bcompound|en|alpha\x7d\x7d"))
      (0, 21, [(1, ("alpha".toList))]) (by decide) (by decide)
  · rw [hext]
    exact congrArg some
      (((c6_template_priority.2.2 _ _ hext).1 (by decide)).1)

/-- Counterexample for C6 as frozen: in the etymology text
`\x7b\x7bcompound|en|alpha\x7d\x7d \x7b\x7baf|en|a|b\x7d\x7d` the compound shape is the first
matching shape, yet it does not determine the result — the extraction
falls through (the match cleans to one component) and returns a result
derived from the later affix shape, so "the first matching shape
determines the result and later shapes are never attempted" fails. -/
theorem c6_counterexample :
    regexIsMatch COMPOUND_TEMPLATE false
        ((String.toList "\x7b\x7bcompound|en|alpha\x7d\x7d \x7b\x7baf|en|a|b\x7d\x7d")) = true ∧
      (extract_morphology_components
        ((String.toList "\x7b\x7bcompound|en|alpha\x7d\x7d \x7b\x7baf|en|a|b\x7d\x7d"))).map
          Prod.snd = some ((String.toList "\x7b\x7baf|en|a|b\x7d\x7d")) := by
  decide

/-!
Syllable-priority lemmas (C2).
-/

/-- C2 (amended to the scanner tool, `wiktionary-scanner-rust`; the legacy
tool's chain, refuted by `c2_counterexample`, consults hyphenation first
and has no IPA signal): the scanner's emitted syllable count is the first
defined result of rhymes, IPA, category, hyphenation in that order; an
IPA-derived count is only emitted when it lies in the plausibility range
1–15; a hyphenation-derived count is at least 1, and over the matched
template content it equals the filtered segment count with the
single-long-segment discard. -/
theorem c2_syllable_priority :
    (∀ t : Str,
      syllablesOfText t =
        firstSome [extract_syllable_count_from_rhymes t,
          extract_syllable_count_from_ipa t,
          extract_syllable_count_from_categories t,
          extract_syllable_count_from_hyphenation t]) ∧
    (∀ (t : Str) (n : Nat), extract_syllable_count_from_ipa t = some n →
      1 ≤ n ∧ n ≤ 15) ∧
    (∀ (t : Str) (n : Nat),
      extract_syllable_count_from_hyphenation t = some n → 1 ≤ n) ∧
    (∀ (t content : Str),
      regexCapture HYPHENATION_TEMPLATE false t 1 = some content →
      extract_syllable_count_from_hyphenation t =
        (let sylls :=
          (splitChar '|' (splitFirstLit content ("||".toList))).filterMap
            (fun p =>
              let p := trimL p
              if p.isEmpty || p.contains '=' then none else some p)
         if sylls.length == 1 && byteLen (sylls.getD 0 []) > 3 then none
         else if sylls.isEmpty then none
         else some sylls.length)) := by
  refine ⟨?_, ?_, ?_, ?_⟩
  · intro t
    rw [firstSome_cons, firstSome_cons, firstSome_cons, firstSome_cons]
    unfold syllablesOfText
    cases extract_syllable_count_from_hyphenation t <;>
      simp [firstSome, Option.orElse]
  · intro t n h
    unfold extract_syllable_count_from_ipa at h
    rcases htc : regexCapture IPA_TEMPLATE false t 1 with _ | tc
    · rw [htc] at h; cases h
    · rw [htc] at h
      dsimp only at h
      rcases hip : regexCapture IPA_TRANSCRIPTION false tc 1 with _ | ipa
      · rw [hip] at h; cases h
      · rw [hip] at h
        dsimp only at h
        split_ifs at h with hcond
        simp only [Bool.or_eq_true, beq_iff_eq, decide_eq_true_eq,
          not_or] at hcond
        have hn := Option.some.inj h
        omega
  · intro t n h
    unfold extract_syllable_count_from_hyphenation at h
    rcases htc : regexCapture HYPHENATION_TEMPLATE false t 1 with _ | content
    · rw [htc] at h; cases h
    · rw [htc] at h
      dsimp only at h
      set sylls := (splitChar '|' (splitFirstLit content ("||".toList))).filterMap
        (fun p =>
          let p := trimL p
          if p.isEmpty || p.contains '=' then none else some p) with hsy
      split_ifs at h with h1 h2
      have hne : sylls ≠ [] := by
        intro he
        rw [he] at h2
        simp at h2
      have hpos : 0 < sylls.length := List.length_pos.mpr hne
      have hn := Option.some.inj h
      omega
  · intro t content hcap
    unfold extract_syllable_count_from_hyphenation
    rw [hcap]

/-- Witness for C2: the IPA extractor on a concrete pronunciation template
yields 3, inside the plausibility range, and a two-segment hyphenation
yields a count of at least 1. -/
theorem c2_syllable_priority_witness :
    extract_syllable_count_from_ipa
        ((String.toList "\x7b\x7bIPA|en|/hæpinəs/\x7d\x7d")) = some 3 ∧
      (1 ≤ 3 ∧ 3 ≤ 15) ∧
      extract_syllable_count_from_hyphenation
        ((String.toList "\x7b\x7bhyph|en|ab|cd\x7d\x7d")) = some 2 ∧
      1 ≤ 2 :=
  ⟨by decide,
    c2_syllable_priority.2.1 ((String.toList "\x7b\x7bIPA|en|/hæpinəs/\x7d\x7d")) 3
      (by decide),
    by decide,
    c2_syllable_priority.2.2.1 ((String.toList "\x7b\x7bhyph|en|ab|cd\x7d\x7d")) 2
      (by decide)⟩

/-- Counterexample for C2 as frozen: the claim's sources include the
legacy tool's chain (`wiktionary-rust/src/main.rs`, lines 850-852), which
consults hyphenation before rhymes and never consults IPA; on a page text
carrying both a two-segment hyphenation template and a rhymes template
with `s=3`, the legacy tool emits 2 while the claimed priority order
yields 3. -/
theorem c2_counterexample :
    legacySyllablesOfText
        ((String.toList "\x7b\x7bhyph|en|ab|cd\x7d\x7d \x7b\x7brhymes|en|x|s=3\x7d\x7d")) =
      some 2 ∧
      firstSome [extract_syllable_count_from_rhymes
          ((String.toList "\x7b\x7bhyph|en|ab|cd\x7d\x7d \x7b\x7brhymes|en|x|s=3\x7d\x7d")),
        extract_syllable_count_from_ipa
          ((String.toList "\x7b\x7bhyph|en|ab|cd\x7d\x7d \x7b\x7brhymes|en|x|s=3\x7d\x7d")),
        extract_syllable_count_from_categories
          ((String.toList "\x7b\x7bhyph|en|ab|cd\x7d\x7d \x7b\x7brhymes|en|x|s=3\x7d\x7d")),
        extract_syllable_count_from_hyphenation
          ((String.toList "\x7b\x7bhyph|en|ab|cd\x7d\x7d \x7b\x7brhymes|en|x|s=3\x7d\x7d"))] =
        some 3 := by
  decide

/-- C7: `parse_template_params` splits `en|[[isle|Isle]]|of|[[Man#Etymology
2|Man]]` into exactly `[en, Isle, of, Man]` — a wikilink contributes its
display text when present and its target otherwise — and splits
`foo|\x7b\x7bq|qualifier\x7d\x7d|bar` into exactly `[foo, "", bar]` — a
nested template contributes empty text. -/
theorem c7_param_parser_examples :
    (parse_template_params
        ((String.toList "en|[[isle|Isle]]|of|[[Man#Etymology 2|Man]]"))) =
      [("en".toList), ("Isle".toList), ("of".toList), ("Man".toList)] ∧
    (parse_template_params
        ((String.toList "foo|\x7b\x7bq|qualifier\x7d\x7d|bar"))) =
      [("foo".toList), ([]), ("bar".toList)] := by
  decide

/-- C4 (amended to the Sequential strategy only): for every configuration
and raw page fragment, the counter the `run_sequential` filter chain
increments is exactly the one named by the specification's ordered
predicate chain — the eight checks run in the stated fixed order and the
first failing check selects its distinct counter (skipped, special,
special, redirects, skipped, non_english, dict_only, non_latin), halting
further checks for that page.  The channel pipeline does not follow this
chain: `c4_counterexample` shows a fragment rejected with no counter at
all, and one whose redirect marker sits outside the extracted body and
is counted `non_english` instead of `redirects`. -/
theorem c4_filter_chain_order (cfg : ScanConfig) (page_xml : Str) :
    counterOf (classifyPage cfg page_xml) = specFilterChain cfg page_xml := by
  unfold classifyPage specFilterChain
  cases regexCapture TITLE_PATTERN false page_xml 1 with
  | none => rfl
  | some title =>
    dsimp only
    split_ifs <;>
      first
      | rfl
      | (cases regexCapture TEXT_PATTERN false page_xml 1 <;> dsimp only <;>
          first
          | rfl
          | (split_ifs <;> rfl))

/-- Counterexample for C4 as frozen: the claim covers every processing
strategy, but the channel pipeline diverges twice.  A page rejected by
the namespace check is dropped by `extract_pages_from_xml` before any
worker or the statistics consumer ever sees it, so no rejection counter
is incremented at all — while the claimed chain demands a `special`
increment.  And `process_raw_page` evaluates the redirect predicate on
the extracted `<text>` body only, so a fragment whose `<redirect .../>`
element sits outside `<text>` survives extraction and is counted
`non_english` — while the claimed chain demands `redirects`. -/
theorem c4_counterexample :
    (specFilterChain cfg0 pageNs = some Counter.special ∧
      pipelinePageCounter cfg0 pageNs = none) ∧
    (specFilterChain cfg0 pageRedir = some Counter.redirects ∧
      pipelinePageCounter cfg0 pageRedir = some Counter.nonEnglish) := by
  decide

/-- C8 (amended): redirect handling holds for pages that reach the
redirect check.  Sequential strategy: on a fragment whose title extracts,
whose namespace and reserved-prefix checks pass, and which carries a
redirect marker, the page callback emits no entries, increments
`redirects`, and leaves `skipped` unchanged.  Channel pipeline: a raw
page whose body carries a redirect marker yields no entries, and the
statistics update increments `redirects` and leaves `skipped` unchanged.
As frozen — over every fragment containing a redirect marker — the claim
fails: a titleless redirect fragment increments `skipped` instead (see
the counterexample). -/
theorem c8_redirect_handling (cfg : ScanConfig) (limit : Option Nat)
    (page_xml title : Str) (raw : RawPage) (st : Stats)
    (ht : regexCapture TITLE_PATTERN false page_xml 1 = some title)
    (hns : (match regexCapture NS_PATTERN false page_xml 1 with
            | some ns => ns != ("0".toList)
            | none => false) = false)
    (hres : cfg.specialPages.any (fun p => startsWithLit title p) = false)
    (hred : regexIsMatch REDIRECT_PATTERN false page_xml = true)
    (hraw : regexIsMatch REDIRECT_PATTERN false raw.text = true) :
    seqPage cfg limit st page_xml =
      ({ st with pages_processed := st.pages_processed + 1,
                 redirects := st.redirects + 1 }, [], false) ∧
    (seqPage cfg limit st page_xml).1.skipped = st.skipped ∧
    (process_raw_page cfg raw).entries = [] ∧
    update_stats_from_result st (process_raw_page cfg raw) =
      { st with redirects := st.redirects + 1 } ∧
    (update_stats_from_result st (process_raw_page cfg raw)).skipped =
      st.skipped := by
  have hcls : classifyPage cfg page_xml = PageOutcome.redirect := by
    unfold classifyPage
    rw [ht]
    dsimp only
    rw [hns, hres, hred]
    simp
  have hseq : seqPage cfg limit st page_xml =
      ({ st with pages_processed := st.pages_processed + 1,
                 redirects := st.redirects + 1 }, [], false) := by
    unfold seqPage
    rw [hcls]
    rfl
  have hpp : process_raw_page cfg raw =
      ⟨[], raw.title, raw.page_id, false, true, false, false, false⟩ := by
    unfold process_raw_page
    rw [hraw]
    simp
  have hupd : update_stats_from_result st (process_raw_page cfg raw) =
      { st with redirects := st.redirects + 1 } := by
    rw [hpp]
    unfold update_stats_from_result
    simp
  refine ⟨hseq, ?_, ?_, hupd, ?_⟩
  · rw [hseq]
  · rw [hpp]
  · rw [hupd]

/-- Witness for C8: a concrete main-namespace redirect page under the
small configuration, with the redirect body reused as the pipeline raw
page. -/
theorem c8_redirect_handling_witness :
    seqPage cfg0 none {} pageRedir =
      ({ pages_processed := 1, redirects := 1 : Stats }, [], false) ∧
    ({ pages_processed := 1, redirects := 1 : Stats }).skipped = 0 ∧
    (process_raw_page cfg0
        ⟨("Dog".toList), pageRedir, 0⟩).entries = [] ∧
    update_stats_from_result {}
        (process_raw_page cfg0 ⟨("Dog".toList), pageRedir, 0⟩) =
      { redirects := 1 : Stats } ∧
    (update_stats_from_result {}
        (process_raw_page cfg0 ⟨("Dog".toList), pageRedir, 0⟩)).skipped =
      0 := by
  have h := c8_redirect_handling cfg0 none pageRedir ("Dog".toList)
    ⟨("Dog".toList), pageRedir, 0⟩ {}
    (by decide) (by decide) (by decide) (by decide) (by decide)
  exact h

/-- Counterexample for C8 as frozen: a fragment that carries a redirect
marker but no title element is rejected by the title-extraction check
first, so the Sequential callback increments `skipped` (not `redirects`)
for it. -/
theorem c8_counterexample :
    regexIsMatch REDIRECT_PATTERN false pageRedirNoTitle = true ∧
    (run_sequential cfg0 [pageRedirNoTitle] none).stats.skipped = 1 ∧
    (run_sequential cfg0 [pageRedirNoTitle] none).stats.redirects = 0 := by
  decide

theorem bumpCase_senses (st : Stats) (c : CaseForm) :
    (bumpCase st c).senses_written = st.senses_written := by
  cases c <;> rfl

theorem bumpCounter_senses (st : Stats) (c : Counter) :
    (bumpCounter st c).senses_written = st.senses_written := by
  cases c <;> rfl

theorem writeEntriesAux_all (N : Nat) (entries : List Entry) (senses : Nat)
    (h : senses + entries.length < N) :
    writeEntriesAux (some N) entries senses =
      (entries, senses + entries.length, false) := by
  induction entries generalizing senses with
  | nil => simp [writeEntriesAux]
  | cons e rest ih =>
    unfold writeEntriesAux
    dsimp only
    have hstop : decide (senses + 1 ≥ N) = false := by
      simp only [decide_eq_false_iff_not]
      simp only [List.length_cons] at h
      omega
    rw [hstop]
    simp only [Bool.false_eq_true, if_false]
    rw [ih (senses + 1) (by simp only [List.length_cons] at h; omega)]
    simp only [List.length_cons, Prod.mk.injEq]
    exact ⟨trivial, by omega, trivial⟩

theorem writeEntriesAux_limit (N : Nat) (entries : List Entry) (senses : Nat)
    (h1 : senses < N) (h2 : N ≤ senses + entries.length) :
    (writeEntriesAux (some N) entries senses).1.length = N - senses ∧
    (writeEntriesAux (some N) entries senses).2.1 = N ∧
    (writeEntriesAux (some N) entries senses).2.2 = true := by
  induction entries generalizing senses with
  | nil =>
    simp only [List.length_nil] at h2
    omega
  | cons e rest ih =>
    unfold writeEntriesAux
    dsimp only
    by_cases hs : N ≤ senses + 1
    · have hstop : decide (senses + 1 ≥ N) = true := by
        simp only [decide_eq_true_eq]
        omega
      rw [hstop]
      simp only [if_true]
      refine ⟨?_, ?_, trivial⟩
      · simp only [List.length_singleton]
        omega
      · dsimp only
        omega
    · have hstop : decide (senses + 1 ≥ N) = false := by
        simp only [decide_eq_false_iff_not]
        omega
      rw [hstop]
      simp only [Bool.false_eq_true, if_false]
      have ihh := ih (senses + 1) (by omega)
        (by simp only [List.length_cons] at h2; omega)
      refine ⟨?_, ihh.2.1, ihh.2.2⟩
      simp only [List.length_cons]
      rw [ihh.1]
      omega

theorem seqPage_senses (cfg : ScanConfig) (N : Nat) (st : Stats) (page : Str)
    (hlt : st.senses_written < N) :
    (N ≤ st.senses_written + pageSenses cfg page →
      (seqPage cfg (some N) st page).2.1.length = N - st.senses_written) ∧
    (st.senses_written + pageSenses cfg page < N →
      (seqPage cfg (some N) st page).2.1.length = pageSenses cfg page) ∧
    (seqPage cfg (some N) st page).1.senses_written =
      st.senses_written + (seqPage cfg (some N) st page).2.1.length ∧
    ((seqPage cfg (some N) st page).2.2 = true ↔
      N ≤ st.senses_written + pageSenses cfg page) := by
  unfold seqPage pageSenses
  cases hc : classifyPage cfg page with
  | accepted title text =>
    dsimp only
    by_cases he : (parse_page cfg title text).isEmpty
    · rw [if_pos he]
      have hlen : (parse_page cfg title text).length = 0 :=
        List.isEmpty_iff_length_eq_zero.mp he
      rw [hlen]
      refine ⟨fun h => by simp only [List.length_nil]; omega,
        fun _ => rfl, rfl, ?_⟩
      simp only [Bool.false_eq_true, false_iff]
      omega
    · rw [if_neg he]
      dsimp only
      simp only [bumpCase_senses]
      by_cases hbig : N ≤ st.senses_written + (parse_page cfg title text).length
      · obtain ⟨l1, l2, l3⟩ :=
          writeEntriesAux_limit N (parse_page cfg title text)
            st.senses_written hlt hbig
        rw [l1, l2, l3]
        refine ⟨fun _ => rfl, fun h => by omega, by omega, ?_⟩
        simp only [true_iff]
        omega
      · rw [writeEntriesAux_all N (parse_page cfg title text)
          st.senses_written (by omega)]
        dsimp only
        refine ⟨fun h => by omega, fun _ => rfl, rfl, ?_⟩
        simp only [Bool.false_eq_true, false_iff]
        omega
  | noTitle =>
    dsimp only [counterOf]
    simp only [bumpCounter_senses, List.length_nil]
    refine ⟨fun h => by omega, fun _ => trivial, rfl,
      by simp only [Bool.false_eq_true, false_iff]; omega⟩
  | badNs =>
    dsimp only [counterOf]
    simp only [bumpCounter_senses, List.length_nil]
    refine ⟨fun h => by omega, fun _ => trivial, rfl,
      by simp only [Bool.false_eq_true, false_iff]; omega⟩
  | reserved =>
    dsimp only [counterOf]
    simp only [bumpCounter_senses, List.length_nil]
    refine ⟨fun h => by omega, fun _ => trivial, rfl,
      by simp only [Bool.false_eq_true, false_iff]; omega⟩
  | redirect =>
    dsimp only [counterOf]
    simp only [bumpCounter_senses, List.length_nil]
    refine ⟨fun h => by omega, fun _ => trivial, rfl,
      by simp only [Bool.false_eq_true, false_iff]; omega⟩
  | noText =>
    dsimp only [counterOf]
    simp only [bumpCounter_senses, List.length_nil]
    refine ⟨fun h => by omega, fun _ => trivial, rfl,
      by simp only [Bool.false_eq_true, false_iff]; omega⟩
  | nonEnglish =>
    dsimp only [counterOf]
    simp only [bumpCounter_senses, List.length_nil]
    refine ⟨fun h => by omega, fun _ => trivial, rfl,
      by simp only [Bool.false_eq_true, false_iff]; omega⟩
  | dictOnly =>
    dsimp only [counterOf]
    simp only [bumpCounter_senses, List.length_nil]
    refine ⟨fun h => by omega, fun _ => trivial, rfl,
      by simp only [Bool.false_eq_true, false_iff]; omega⟩
  | nonLatin =>
    dsimp only [counterOf]
    simp only [bumpCounter_senses, List.length_nil]
    refine ⟨fun h => by omega, fun _ => trivial, rfl,
      by simp only [Bool.false_eq_true, false_iff]; omega⟩

theorem runSeqAux_limit (cfg : ScanConfig) (N : Nat) :
    ∀ (pages : List Str) (st : Stats),
      st.senses_written < N →
      N ≤ st.senses_written + totalSenses cfg pages →
      (runSeqAux cfg (some N) pages st).output.length +
          st.senses_written = N ∧
      (runSeqAux cfg (some N) pages st).halted = true := by
  intro pages
  induction pages with
  | nil =>
    intro st h1 h2
    simp only [totalSenses] at h2
    omega
  | cons page rest ih =>
    intro st h1 h2
    obtain ⟨d1a, d1b, d2, d3⟩ := seqPage_senses cfg N st page h1
    simp only [totalSenses] at h2
    by_cases hN : N ≤ st.senses_written + pageSenses cfg page
    · have hflag : (seqPage cfg (some N) st page).2.2 = true := d3.mpr hN
      have hr : runSeqAux cfg (some N) (page :: rest) st =
          ⟨(seqPage cfg (some N) st page).1,
            (seqPage cfg (some N) st page).2.1, true, rest⟩ := by
        unfold runSeqAux
        simp only [hflag, if_true]
      rw [hr]
      exact ⟨by rw [d1a hN]; omega, rfl⟩
    · have hflag : (seqPage cfg (some N) st page).2.2 = false := by
        cases hf : (seqPage cfg (some N) st page).2.2
        · rfl
        · exact absurd (d3.mp hf) hN
      have hr : runSeqAux cfg (some N) (page :: rest) st =
          ⟨(runSeqAux cfg (some N) rest (seqPage cfg (some N) st page).1).stats,
            (seqPage cfg (some N) st page).2.1 ++
              (runSeqAux cfg (some N) rest
                (seqPage cfg (some N) st page).1).output,
            (runSeqAux cfg (some N) rest
              (seqPage cfg (some N) st page).1).halted,
            (runSeqAux cfg (some N) rest
              (seqPage cfg (some N) st page).1).unread⟩ := by
        simp only [runSeqAux, hflag, Bool.false_eq_true, if_false]
      have hlen : (seqPage cfg (some N) st page).2.1.length =
          pageSenses cfg page := d1b (by omega)
      have ihh := ih (seqPage cfg (some N) st page).1
        (by rw [d2, hlen]; omega) (by rw [d2, hlen]; omega)
      rw [hr]
      refine ⟨?_, ihh.2⟩
      simp only [List.length_append]
      rw [hlen]
      omega

/-- C9 (amended with `1 ≤ N`): under the Sequential strategy with output
limit `N ≥ 1`, if the page stream carries at least `N` emittable sense
records then exactly `N` records are written and the page callback
returns `false`, halting the scan.  As frozen the claim also covers
`N = 0`, where the callback still writes the first record before
checking the limit (see the counterexample). -/
theorem c9_output_limit (cfg : ScanConfig) (pages : List Str) (N : Nat)
    (h1 : 1 ≤ N) (h2 : N ≤ totalSenses cfg pages) :
    (run_sequential cfg pages (some N)).output.length = N ∧
    (run_sequential cfg pages (some N)).halted = true := by
  have hz : ({} : Stats).senses_written = 0 := rfl
  have h := runSeqAux_limit cfg N pages {} (by rw [hz]; omega)
    (by rw [hz]; omega)
  have hh := h.1
  rw [hz] at hh
  unfold run_sequential
  exact ⟨by omega, h.2⟩

/-- Witness for C9: two copies of a two-sense page carry 4 emittable
records; with limit 3 the run writes exactly 3 and halts. -/
theorem c9_output_limit_witness :
    (1 ≤ 3 ∧ 3 ≤ totalSenses cfg0 [page0, page0]) ∧
    (run_sequential cfg0 [page0, page0] (some 3)).output.length = 3 ∧
    (run_sequential cfg0 [page0, page0] (some 3)).halted = true :=
  ⟨⟨by decide, by decide⟩,
    c9_output_limit cfg0 [page0, page0] 3 (by decide) (by decide)⟩

/-- Counterexample for C9 as frozen: with output limit `0` the Sequential
callback writes one record before the limit check fires, so the run
writes 1 record rather than the claimed exact `0`. -/
theorem c9_counterexample :
    (run_sequential cfg0 [page0] (some 0)).output.length = 1 := by
  decide

end OWL
